import Mathlib

/-!
Verification of the cmdsaw tree-discovery-and-cache engine.

This file gives a shallow embedding, in Lean, of the core of the cmdsaw
repository (the crawler in `cmdsaw/discovery.py`, the process runner in
`cmdsaw/runner.py` and `cmdsaw/utils.py`, the parse cache in
`cmdsaw/parsing/cache.py`, and the retry wrapper in
`cmdsaw/parsing/llm_parser.py`), together with theorems settling the frozen
claims about that code.  External effects (subprocesses, the LLM, the clock,
binary resolution) are modelled as explicit oracle parameters; machine-level
details (UTF-8 encoding, SHA-256) are implemented concretely.
-/

set_option maxRecDepth 40000

/-! ## Python string primitives -/

/-- Python whitespace characters relevant to `str.split()` / `str.strip()`
(space, tab, newline, carriage return, vertical tab, form feed). -/
def isPyWs (c : Char) : Bool :=
  c = ' ' ∨ c = '\t' ∨ c = '\n' ∨ c = '\r' ∨ c = '\x0b' ∨ c = '\x0c'

/-- Core of `str.split()` with no separator: split on runs of whitespace,
discarding empty pieces.  The `fuel` argument is a structural-recursion
bound; it is always called with the length of the character list, which is
sufficient since each step consumes at least one character. -/
def splitWsCore : Nat → List Char → List (List Char)
  | 0, _ => []
  | _ + 1, [] => []
  | fuel + 1, c :: cs =>
    if isPyWs c then splitWsCore fuel cs
    else (c :: cs.takeWhile (fun d => ¬ isPyWs d)) ::
      splitWsCore fuel (cs.dropWhile (fun d => ¬ isPyWs d))

/-- Embedding of Python `s.split()` (no separator argument). -/
def splitWs (s : String) : List String :=
  (splitWsCore s.data.length s.data).map (fun cs => String.mk cs)

/-- Embedding of Python `s.count(" ")`: since the needle is a single
character, this is the number of space characters in `s`. -/
def countSpaces (s : String) : Nat :=
  s.data.countP (fun c => c = ' ')

/-- Embedding of Python `s.strip()` (strip whitespace from both ends). -/
def pyStrip (s : String) : String :=
  String.mk (((s.data.dropWhile isPyWs).reverse.dropWhile isPyWs).reverse)

/-- Characters allowed inside the parameter part of an ANSI escape
sequence, per the regex `\x1b\[[0-9;]*[mK]` in `cmdsaw/utils.py`. -/
def isAnsiParam (c : Char) : Bool :=
  ('0' ≤ c ∧ c ≤ '9') ∨ c = ';'

/-- Core of `strip_ansi`: removes every occurrence of `\x1b\[[0-9;]*[mK]`,
scanning left to right as `re.sub` does.  `fuel` is a structural bound,
always instantiated with the length of the list. -/
def stripAnsiCore : Nat → List Char → List Char
  | 0, cs => cs
  | _ + 1, [] => []
  | fuel + 1, c :: cs =>
    if c = '\x1b' then
      match cs with
      | '[' :: cs' =>
        let ps := cs'.dropWhile isAnsiParam
        match ps with
        | k :: rest =>
          if k = 'm' ∨ k = 'K' then stripAnsiCore fuel rest
          else c :: stripAnsiCore fuel cs
        | [] => c :: stripAnsiCore fuel cs
      | _ => c :: stripAnsiCore fuel cs
    else c :: stripAnsiCore fuel cs

/-- Embedding of `strip_ansi` from `cmdsaw/utils.py`. -/
def strip_ansi (s : String) : String :=
  String.mk (stripAnsiCore (s.data.length * 2) s.data)

/-- Python line-break characters relevant to `str.splitlines()` for the
help/version outputs handled here. -/
def isPyLineBreak (c : Char) : Bool :=
  c = '\n' ∨ c = '\r' ∨ c = '\x0b' ∨ c = '\x0c' ∨ c = '\x1c' ∨ c = '\x1d' ∨ c = '\x1e' ∨ c = '\x85'

/-- Embedding of `s.splitlines()[0]` for a nonempty `s`: the characters up
to the first line break. -/
def firstLine (s : String) : String :=
  String.mk (s.data.takeWhile (fun c => ¬ isPyLineBreak c))

/-- Lexicographic comparison of character lists by code point, matching
Python's string ordering. -/
def strLeAux : List Char → List Char → Bool
  | [], _ => true
  | _ :: _, [] => false
  | a :: as, b :: bs => if a < b then true else if b < a then false else strLeAux as bs

/-- Python string `<=` (lexicographic by code point), used by `sorted`. -/
def strLe (a b : String) : Bool := strLeAux a.data b.data

/-- The ordering relation underlying Python `sorted` on strings. -/
def strLeProp (a b : String) : Prop := strLe a b = true

instance : DecidableRel strLeProp := fun a b => instDecidableEqBool (strLe a b) true

/-- Embedding of Python `sorted` on a list of strings. -/
def pySorted (l : List String) : List String :=
  List.insertionSort strLeProp l

/-! ## SHA-256 (as used by `hashlib.sha256(...).hexdigest()`) -/

/-- Reduce modulo 2^32. -/
def w32 (x : Nat) : Nat := x % 4294967296

/-- Rotate a 32-bit word right by `n`. -/
def rotr32 (n x : Nat) : Nat := Nat.lor (x >>> n) (w32 (x <<< (32 - n)))

/-- Bitwise complement of a 32-bit word. -/
def not32 (x : Nat) : Nat := Nat.xor 4294967295 x

/-- SHA-256 `Ch` function. -/
def shaCh (x y z : Nat) : Nat := Nat.xor (Nat.land x y) (Nat.land (not32 x) z)

/-- SHA-256 `Maj` function. -/
def shaMaj (x y z : Nat) : Nat :=
  Nat.xor (Nat.xor (Nat.land x y) (Nat.land x z)) (Nat.land y z)

/-- SHA-256 big sigma 0. -/
def shaS0 (x : Nat) : Nat := Nat.xor (Nat.xor (rotr32 2 x) (rotr32 13 x)) (rotr32 22 x)

/-- SHA-256 big sigma 1. -/
def shaS1 (x : Nat) : Nat := Nat.xor (Nat.xor (rotr32 6 x) (rotr32 11 x)) (rotr32 25 x)

/-- SHA-256 small sigma 0. -/
def shas0 (x : Nat) : Nat := Nat.xor (Nat.xor (rotr32 7 x) (rotr32 18 x)) (x >>> 3)

/-- SHA-256 small sigma 1. -/
def shas1 (x : Nat) : Nat := Nat.xor (Nat.xor (rotr32 17 x) (rotr32 19 x)) (x >>> 10)

/-- The 64 SHA-256 round constants. -/
def shaK : List Nat :=
  [1116352408, 1899447441, 3049323471, 3921009573, 961987163,
   1508970993, 2453635748, 2870763221, 3624381080, 310598401,
   607225278, 1426881987, 1925078388, 2162078206, 2614888103,
   3248222580, 3835390401, 4022224774, 264347078, 604807628,
   770255983, 1249150122, 1555081692, 1996064986, 2554220882,
   2821834349, 2952996808, 3210313671, 3336571891, 3584528711,
   113926993, 338241895, 666307205, 773529912, 1294757372,
   1396182291, 1695183700, 1986661051, 2177026350, 2456956037,
   2730485921, 2820302411, 3259730800, 3345764771, 3516065817,
   3600352804, 4094571909, 275423344, 430227734, 506948616,
   659060556, 883997877, 958139571, 1322822218, 1537002063,
   1747873779, 1955562222, 2024104815, 2227730452, 2361852424,
   2428436474, 2756734187, 3204031479, 3329325298]

/-- The SHA-256 initial hash value. -/
def shaH0 : List Nat :=
  [1779033703, 3144134277, 1013904242, 2773480762,
   1359893119, 2600822924, 528734635, 1541459225]

/-- Big-endian 8-byte encoding of a (bit-)length. -/
def lenBytes64 (n : Nat) : List Nat :=
  [Nat.land (n >>> 56) 255, Nat.land (n >>> 48) 255, Nat.land (n >>> 40) 255,
   Nat.land (n >>> 32) 255, Nat.land (n >>> 24) 255, Nat.land (n >>> 16) 255,
   Nat.land (n >>> 8) 255, Nat.land n 255]

/-- SHA-256 message padding on a byte list. -/
def shaPad (msg : List Nat) : List Nat :=
  let len := msg.length
  let k := (119 - (len % 64)) % 64
  msg ++ [128] ++ List.replicate k 0 ++ lenBytes64 (8 * len)

/-- Group bytes into big-endian 32-bit words. -/
def bytesToWords : List Nat → List Nat
  | b0 :: b1 :: b2 :: b3 :: rest => (((b0 * 256 + b1) * 256 + b2) * 256 + b3) :: bytesToWords rest
  | _ => []

/-- Group a word list into 16-word blocks; `fuel` is a structural bound,
always instantiated with the list length. -/
def toBlocks : Nat → List Nat → List (List Nat)
  | 0, _ => []
  | _ + 1, [] => []
  | fuel + 1, w :: ws => ((w :: ws).take 16) :: toBlocks fuel ((w :: ws).drop 16)

/-- Extend a 16-word block to the 64-word message schedule: appends `n`
further words, each computed from the last 16. -/
def shaScheduleExt : Nat → List Nat → List Nat
  | 0, w => w
  | n + 1, w =>
    let t := w.length
    let wt := w32 (shas1 (w.get! (t - 2)) + w.get! (t - 7) + shas0 (w.get! (t - 15)) + w.get! (t - 16))
    shaScheduleExt n (w ++ [wt])

/-- One round of the SHA-256 compression function.  The state is the
8-tuple `(a, b, c, d, e, f, g, h)` encoded as a list. -/
def shaRound (st : List Nat) (kw : Nat × Nat) : List Nat :=
  match st with
  | [a, b, c, d, e, f, g, h] =>
    let t1 := w32 (h + shaS1 e + shaCh e f g + kw.1 + kw.2)
    let t2 := w32 (shaS0 a + shaMaj a b c)
    [w32 (t1 + t2), a, b, c, w32 (d + t1), e, f, g]
  | other => other

/-- Compress one 16-word block into the running hash. -/
def shaCompress (hash : List Nat) (block : List Nat) : List Nat :=
  let w := shaScheduleExt 48 block
  let st := (shaK.zip w).foldl shaRound hash
  (hash.zip st).map (fun p => w32 (p.1 + p.2))

/-- SHA-256 of a byte list, as the list of eight 32-bit hash words. -/
def sha256Words (msg : List Nat) : List Nat :=
  (toBlocks (bytesToWords (shaPad msg)).length (bytesToWords (shaPad msg))).foldl shaCompress shaH0

/-- Lowercase hex digit for a value below 16. -/
def hexDigit (n : Nat) : Char :=
  if n < 10 then Char.ofNat (48 + n) else Char.ofNat (87 + n)

/-- Eight-hex-digit rendering of a 32-bit word. -/
def wordToHex (x : Nat) : List Char :=
  [hexDigit (Nat.land (x >>> 28) 15), hexDigit (Nat.land (x >>> 24) 15),
   hexDigit (Nat.land (x >>> 20) 15), hexDigit (Nat.land (x >>> 16) 15),
   hexDigit (Nat.land (x >>> 12) 15), hexDigit (Nat.land (x >>> 8) 15),
   hexDigit (Nat.land (x >>> 4) 15), hexDigit (Nat.land x 15)]

/-- UTF-8 encoding of one character, as Python `str.encode()` produces. -/
def utf8Char (c : Char) : List Nat :=
  let n := c.toNat
  if n < 128 then [n]
  else if n < 2048 then [192 + (n >>> 6), 128 + Nat.land n 63]
  else if n < 65536 then
    [224 + (n >>> 12), 128 + Nat.land (n >>> 6) 63, 128 + Nat.land n 63]
  else
    [240 + (n >>> 18), 128 + Nat.land (n >>> 12) 63, 128 + Nat.land (n >>> 6) 63, 128 + Nat.land n 63]

/-- Embedding of Python `s.encode()` (UTF-8 bytes of a string). -/
def utf8Encode (s : String) : List Nat :=
  s.data.flatMap utf8Char

/-- Embedding of `hashlib.sha256(s.encode()).hexdigest()`. -/
def sha256Hex (s : String) : String :=
  String.mk ((sha256Words (utf8Encode s)).flatMap wordToHex)

/-! ## Schema (`cmdsaw/parsing/schema.py`) -/

/-- Embedding of `ScalarType` from `cmdsaw/parsing/schema.py`. -/
inductive ScalarType where
  | int | float | str | path | bool | choice | unknown
deriving DecidableEq, Repr

/-- Embedding of `FileRole`. -/
inductive FileRole where
  | input | output | none
deriving DecidableEq, Repr

/-- Embedding of `FileFormat`. -/
structure FileFormat where
  extension : String
  edam_format : Option String := Option.none
  edam_uri : Option String := Option.none
deriving DecidableEq, Repr

/-- Embedding of `OptionDoc`. -/
structure OptionDoc where
  long : Option String := Option.none
  short : Option String := Option.none
  is_flag : Bool := false
  type : ScalarType := ScalarType.unknown
  choices : Option (List String) := Option.none
  required : Bool := false
  default : Option String := Option.none
  description : Option String := Option.none
  repeatable : Bool := false
  envvar : Option String := Option.none
  aliases : List String := []
  file_role : FileRole := FileRole.none
  file_format : Option FileFormat := Option.none
deriving DecidableEq, Repr

/-- Embedding of `PositionalDoc`. -/
structure PositionalDoc where
  name : String
  index : Nat
  variadic : Bool := false
  required : Bool := true
  type : ScalarType := ScalarType.unknown
  description : Option String := Option.none
  file_role : FileRole := FileRole.none
  file_format : Option FileFormat := Option.none
deriving DecidableEq, Repr

/-- Embedding of `CommandDoc`. -/
structure CommandDoc where
  name : String
  path : String
  help_text : String
  options : List OptionDoc := []
  positionals : List PositionalDoc := []
  subcommands : List String := []
  requires_subcommand : Bool := false
  supports_piped_output : Bool := false
deriving DecidableEq, Repr

/-- Embedding of `ContainerInfo`. -/
structure ContainerInfo where
  bioconda : Option String
  docker : Option String
  singularity : Option String
deriving DecidableEq, Repr

/-- Embedding of `ToolDoc`. -/
structure ToolDoc where
  command : String
  version : Option String := Option.none
  help_text : String
  invocation : List String
  options : List OptionDoc := []
  positionals : List PositionalDoc := []
  subcommands : List CommandDoc := []
  captured_at : String
  container_info : Option ContainerInfo := Option.none
  supports_piped_output : Bool := false
deriving DecidableEq, Repr

/-- Embedding of `ParseDiagnostics`. -/
structure ParseDiagnostics where
  warnings : List String := []
  timeouts : Nat := 0
  llm_retries : Nat := 0
  visited_commands : Nat := 0
  version_extracted : Bool := false
deriving DecidableEq, Repr

/-- Embedding of `CmdSawResult`. -/
structure CmdSawResult where
  schema_version : String
  tool : ToolDoc
  diagnostics : ParseDiagnostics
deriving DecidableEq, Repr

/-! ## Errors and subprocess model (`cmdsaw/errors.py`, `cmdsaw/utils.py`) -/

/-- Python exceptions that can escape the embedded functions.
`captureTimeout` embeds the repository's own `errors.CaptureTimeout(cmdline,
timeout)`; `timeoutExpired` embeds `subprocess.TimeoutExpired`, which
`subprocess.run` raises when the wall-clock timeout elapses;
`commandNotFound` embeds `errors.CommandNotFound`; `indexError` embeds a
built-in `IndexError`. -/
inductive PyExn where
  | captureTimeout (cmdline : List String) (timeout : Nat)
  | timeoutExpired (cmdline : List String) (timeout : Nat)
  | commandNotFound (cmd : String)
  | indexError
deriving DecidableEq, Repr

/-- Outcome of one subprocess invocation, as decided by the operating
system: either the process completes within the timeout with the given
stdout, stderr and return code, or the wall-clock timeout elapses first. -/
inductive ProcOutcome where
  | completes (stdout stderr : String) (returncode : Int)
  | timesOut
deriving DecidableEq, Repr

/-- Embedding of `run_capture` from `cmdsaw/utils.py`.  The subprocess
itself is the oracle argument `outcome`.  The environment overlay and the
working directory do not influence the returned value in the source (they
are merely forwarded to `subprocess.run`), so they are not modelled.  On a
timeout, `subprocess.run` raises `subprocess.TimeoutExpired`, which
`run_capture` does not catch. -/
def run_capture (cmdline : List String) (timeout : Nat) (outcome : ProcOutcome) :
    Except PyExn (String × Int) :=
  match outcome with
  | ProcOutcome.timesOut => Except.error (PyExn.timeoutExpired cmdline timeout)
  | ProcOutcome.completes stdout stderr returncode =>
    let out := stdout ++ (if stderr ≠ "" ∧ stdout = "" then "\n" ++ stderr else "")
    Except.ok (pyStrip (strip_ansi out), returncode)

/-- Embedding of `which_or_raise` from `cmdsaw/utils.py`; `which` is the
`shutil.which` oracle (`none` models both `None` and `""`, which are falsy). -/
def which_or_raise (cmd : String) (which : String → Option String) : Except PyExn String :=
  match which cmd with
  | Option.none => Except.error (PyExn.commandNotFound cmd)
  | Option.some p => Except.ok p

/-- Modelled from the spec: `cmdsaw/constants.py` is absent from the
sources; per the spec, the default subcommand help invocation format is
`<base> <subpath...> <help-flag>`, which `cmdsaw/runner.py` labels
`subcommand-help` (its `else` branch). -/
def DEFAULT_SUBCOMMAND_HELP_FORMAT : String := "subcommand-help"

/-- The command line built by `try_help` in `cmdsaw/runner.py` for one help
flag, given the subcommand help format.  `command_path[0]` / `command_path[1:]`
are modelled with `take`/`drop` (identical for the nonempty paths the
crawler passes). -/
def helpCmdline (commandPath : List String) (fmt : String) (hf : String) : List String :=
  if commandPath.length = 1 then
    if hf = "help" then commandPath ++ ["help"] else commandPath ++ [hf]
  else if fmt = "help-subcommand" then
    if hf = "help" then commandPath.take 1 ++ ["help"] ++ commandPath.drop 1
    else commandPath.take 1 ++ [hf] ++ commandPath.drop 1
  else if fmt = "tool-subcommand" then commandPath
  else if fmt = "subcommand-only" then commandPath.drop 1
  else
    if hf = "help" then commandPath ++ ["help"] else commandPath ++ [hf]

/-- Embedding of `try_help` from `cmdsaw/runner.py`: tries each help flag
in order, returning the first invocation whose captured output is
non-empty; `("", 1)` if none produce output.  `outcome` is the subprocess
oracle; any exception raised by `run_capture` propagates (there is no
handler in the source). -/
def try_help (commandPath : List String) (helpFlags : List String) (timeout : Nat)
    (fmt : String) (outcome : List String → ProcOutcome) : Except PyExn (String × Int) :=
  match helpFlags with
  | [] => Except.ok ("", 1)
  | hf :: rest =>
    let cmdline := helpCmdline commandPath fmt hf
    match run_capture cmdline timeout (outcome cmdline) with
    | Except.error e => Except.error e
    | Except.ok (out, code) =>
      if out ≠ "" then Except.ok (out, code)
      else try_help commandPath rest timeout fmt outcome

/-! ## Version extraction (`cmdsaw/utils.py` `_VERSION_RX`, `cmdsaw/runner.py` `try_version`) -/

/-- Character class `[-+A-Za-z0-9.]` of the suffix part of `_VERSION_RX`. -/
def isRxSuffixChar (c : Char) : Bool :=
  c = '-' ∨ c = '+' ∨ ('A' ≤ c ∧ c ≤ 'Z') ∨ ('a' ≤ c ∧ c ≤ 'z') ∨ c.isDigit ∨ c = '.'

/-- Greedy parse of up to `n` repetitions of `\.\d+` (used by both the code
pattern and the spec pattern); returns the consumed characters and the rest. -/
def dotDigitGroups : Nat → List Char → (List Char × List Char)
  | 0, r => ([], r)
  | n + 1, r =>
    match r with
    | '.' :: r' =>
      let d := r'.takeWhile Char.isDigit
      if d = [] then ([], r)
      else
        let step := dotDigitGroups n (r'.dropWhile Char.isDigit)
        ('.' :: (d ++ step.1), step.2)
    | _ => ([], r)

/-- Match of the code's `_VERSION_RX` pattern
`(\d+\.\d+(?:\.\d+){0,2}(?:[-+A-Za-z0-9.]*)?)` anchored at the start of the
character list; returns the matched characters. -/
def versionMatchAt (cs : List Char) : Option (List Char) :=
  let d1 := cs.takeWhile Char.isDigit
  if d1 = [] then Option.none
  else
    match cs.dropWhile Char.isDigit with
    | '.' :: r2 =>
      let d2 := r2.takeWhile Char.isDigit
      if d2 = [] then Option.none
      else
        let g := dotDigitGroups 2 (r2.dropWhile Char.isDigit)
        let suffix := g.2.takeWhile isRxSuffixChar
        Option.some (d1 ++ '.' :: (d2 ++ g.1 ++ suffix))
    | _ => Option.none

/-- Leftmost search of `_VERSION_RX`, as `re.search` performs; `fuel` is a
structural bound, always instantiated with one more than the list length. -/
def versionSearchCore : Nat → List Char → Option (List Char)
  | 0, _ => Option.none
  | fuel + 1, cs =>
    match versionMatchAt cs with
    | Option.some m => Option.some m
    | Option.none =>
      match cs with
      | [] => Option.none
      | _ :: rest => versionSearchCore fuel rest

/-- Embedding of `_VERSION_RX.search(text)` returning `m.group(1)`. -/
def versionSearch (text : String) : Option String :=
  (versionSearchCore (text.data.length + 1) text.data).map (fun cs => String.mk cs)

/-- Python `str.isdigit()` restricted to ASCII content (nonempty and all
digits). -/
def pyIsDigit (cs : List Char) : Bool :=
  ¬ cs.isEmpty ∧ cs.all Char.isDigit

/-- Embedding of `extract_version_number` from `cmdsaw/utils.py`, including
the (unreachable, since every match starts with a digit) leading-`v` strip
branch. -/
def extract_version_number (text : String) : Option String :=
  match versionSearch text with
  | Option.none => Option.none
  | Option.some v =>
    if v.data.head? = Option.some 'v' ∧ pyIsDigit ((v.data.drop 1).filter (fun c => ¬ c = '.')) then
      Option.some (String.mk (v.data.drop 1))
    else Option.some v

/-- Modelled from the spec: `cmdsaw/constants.py` is absent from the
sources; the spec and the `try_version` docstring give the fixed version
flag candidates `--version` and `-v`. -/
def VERSION_FLAG_CANDIDATES : List String := ["--version", "-v"]

/-- Embedding of the flag loop of `try_version` from `cmdsaw/runner.py`,
generalized over the flag list: for each flag, run the capture; on
non-empty output, extract a version from the first line of the output and
return it if found; otherwise continue; `none` when the flags are
exhausted.  Exceptions from `run_capture` propagate. -/
def tryVersionFlags (commandPath : List String) (flags : List String) (timeout : Nat)
    (outcome : List String → ProcOutcome) : Except PyExn (Option String) :=
  match flags with
  | [] => Except.ok Option.none
  | vf :: rest =>
    let cmdline := commandPath ++ [vf]
    match run_capture cmdline timeout (outcome cmdline) with
    | Except.error e => Except.error e
    | Except.ok (out, _) =>
      if out ≠ "" then
        match extract_version_number (firstLine out) with
        | Option.some v => Except.ok (Option.some v)
        | Option.none => tryVersionFlags commandPath rest timeout outcome
      else tryVersionFlags commandPath rest timeout outcome

/-- Embedding of `try_version` from `cmdsaw/runner.py` (the flag loop
instantiated with the fixed candidate list). -/
def try_version (commandPath : List String) (timeout : Nat)
    (outcome : List String → ProcOutcome) : Except PyExn (Option String) :=
  tryVersionFlags commandPath VERSION_FLAG_CANDIDATES timeout outcome

/-- Character class `[\w.]` of the spec's version pattern. -/
def isSpecWordChar (c : Char) : Bool :=
  ('A' ≤ c ∧ c ≤ 'Z') ∨ ('a' ≤ c ∧ c ≤ 'z') ∨ c.isDigit ∨ c = '_' ∨ c = '.'

/-- Match, anchored at the start, of the version pattern as the spec words
it: `\d+(\.\d+){0,2}(?:[-+][\w.]*)?`.  This definition follows the spec's
words, for comparison against the code's `_VERSION_RX`. -/
def specVersionMatchAt (cs : List Char) : Option (List Char) :=
  let d1 := cs.takeWhile Char.isDigit
  if d1 = [] then Option.none
  else
    let g := dotDigitGroups 2 (cs.dropWhile Char.isDigit)
    let suffix :=
      match g.2 with
      | c :: r => if c = '-' ∨ c = '+' then c :: r.takeWhile isSpecWordChar else []
      | [] => []
    Option.some (d1 ++ g.1 ++ suffix)

/-- Leftmost search of the spec's version pattern; follows the spec's words. -/
def specVersionSearchCore : Nat → List Char → Option (List Char)
  | 0, _ => Option.none
  | fuel + 1, cs =>
    match specVersionMatchAt cs with
    | Option.some m => Option.some m
    | Option.none =>
      match cs with
      | [] => Option.none
      | _ :: rest => specVersionSearchCore fuel rest

/-- The first substring matching the spec's version pattern
`\d+(\.\d+){0,2}(?:[-+][\w.]*)?`; follows the spec's words. -/
def specVersionSearch (text : String) : Option String :=
  (specVersionSearchCore (text.data.length + 1) text.data).map (fun cs => String.mk cs)

/-! ## Parse cache (`cmdsaw/parsing/cache.py`) -/

/-- JSON values, the payloads `json.dump`/`json.load` round-trip.  Numbers
are modelled as integers (exact decimals suffice for the claims; no claim
depends on float payloads). -/
inductive Json where
  | null
  | bool (b : Bool)
  | num (n : Int)
  | str (s : String)
  | arr (elems : List Json)
  | obj (fields : List (String × Json))

/-- The cache directory contents: one entry per file name.  Writing
prepends; `List.lookup` finds the most recent write.  File contents are
modelled as the `Json` value itself, since `json.dump` followed by
`json.load` reproduces a JSON-serializable payload. -/
def CacheFs : Type := List (String × Json)

/-- Embedding of Python `version or 'none'`: both `None` and the falsy
empty string become `"none"`. -/
def versionOrNone (version : Option String) : String :=
  match version with
  | Option.none => "none"
  | Option.some v => if v = "" then "none" else v

namespace ParseCache

/-- Embedding of `ParseCache._key_path`: the storage path under `root` is
the first 32 hex digits of
`sha256(f"{command_path}|{version or 'none'}|{model}|{help_hash}")`. -/
def key_path (root command_path : String) (version : Option String) (model help_hash : String) : String :=
  let base := command_path ++ "|" ++ versionOrNone version ++ "|" ++ model ++ "|" ++ help_hash
  let h := String.mk ((sha256Hex base).data.take 32)
  root ++ "/" ++ h ++ ".json"

/-- Embedding of `ParseCache.get`: hash the help text, derive the key path,
and return the stored value if the file exists and `none` otherwise. -/
def get (fs : CacheFs) (root command_path : String) (version : Option String)
    (model help_text : String) : Option Json :=
  let help_hash := sha256Hex help_text
  List.lookup (key_path root command_path version model help_hash) fs

/-- Embedding of `ParseCache.set`: hash the help text, derive the key path,
and write the serialized entry to that file (overwriting semantics are
those of `List.lookup` on the prepended list). -/
def set (fs : CacheFs) (root command_path : String) (version : Option String)
    (model help_text : String) (data : Json) : CacheFs :=
  let help_hash := sha256Hex help_text
  (key_path root command_path version model help_hash, data) :: fs

end ParseCache

/-! ## Structured parse with retries (`cmdsaw/parsing/llm_parser.py`) -/

/-- A validation failure raised by `structured.invoke` (pydantic
`ValidationError`); the content is irrelevant to the control flow. -/
structure ValidationError where
  msg : String := ""

/-- The reminder appended to the user prompt after each failed attempt. -/
def retryReminder : String := "\nReminder: Return ONLY valid JSON matching the CommandDoc schema."

/-- The initial user prompt built by `parse_command_help`. -/
def userBlob (command_path help_text : String) : String :=
  "command_path: " ++ command_path ++ "\n\nhelp_text:\n" ++ help_text ++ "\n"

/-- The fallback document `parse_command_help` builds after exhausting
retries: `CommandDoc(name=command_path.split()[-1], path=command_path,
help_text=help_text, options=[], positionals=[], subcommands=[])`.
Indexing `[-1]` raises `IndexError` when `command_path.split()` is empty. -/
def fallbackDoc (command_path help_text : String) : Except PyExn CommandDoc :=
  match (splitWs command_path).getLast? with
  | Option.none => Except.error PyExn.indexError
  | Option.some n =>
    Except.ok { name := n, path := command_path, help_text := help_text,
                options := [], positionals := [], subcommands := [] }

/-- The retry loop of `parse_command_help`.  `attempt` is the
`structured.invoke` oracle, a function of the user prompt; `remaining`
counts the attempts still allowed after the current one (the source's
`attempt >= retries` test is `remaining = 0` here, starting from
`remaining = retries`). -/
def parseLoop (attempt : String → Except ValidationError CommandDoc)
    (command_path help_text : String) : Nat → String → Except PyExn CommandDoc
  | remaining, blob =>
    match attempt blob with
    | Except.ok doc => Except.ok doc
    | Except.error _ =>
      match remaining with
      | 0 => fallbackDoc command_path help_text
      | r + 1 => parseLoop attempt command_path help_text r (blob ++ retryReminder)

/-- Embedding of `parse_command_help` from `cmdsaw/parsing/llm_parser.py`.
`cacheHit` models the combined `cache_get(...)` + `CommandDoc.model_validate`
result when a cache tuple is supplied and the key is present (`none` both
for a disabled cache and for a miss); `attempt` models `structured.invoke`
on the given user prompt.  The write-back to the cache on success has no
bearing on the returned document and is not part of the return value. -/
def parse_command_help (command_path help_text : String) (retries : Nat)
    (cacheHit : Option CommandDoc)
    (attempt : String → Except ValidationError CommandDoc) : Except PyExn CommandDoc :=
  match cacheHit with
  | Option.some doc => Except.ok doc
  | Option.none => parseLoop attempt command_path help_text retries (userBlob command_path help_text)

/-! ## The crawler (`cmdsaw/discovery.py` `build_tree`) -/

/-- Modelled from the spec: `cmdsaw/constants.py` is absent from the
sources; the schema version string is opaque to every claim. -/
def SCHEMA_VERSION : String := "1"

/-- Python truthiness of an optional string (`bool(version)`). -/
def pyTruthy (v : Option String) : Bool :=
  match v with
  | Option.none => false
  | Option.some s => s ≠ ""

/-- Crawl configuration relevant to the scheduler loop of `build_tree`. -/
structure CrawlCfg where
  rootCmd : String
  maxDepth : Nat
  concurrency : Nat
deriving DecidableEq, Repr

/-- State of the scheduler loop of `build_tree`.  `queue`, `visited`,
`subdocs` and `visitedCount` embed the variables `queue`, `visited`,
`subdocs` and `diagnostics.visited_commands` of the source; `waves` is the
dispatch trace (one entry per wave: the `(full_path, depth)` pairs
submitted to the pool, in submission order), recorded for the statements
about scheduling. -/
structure CrawlState where
  queue : List (String × Nat)
  visited : List String
  subdocs : List (String × CommandDoc)
  visitedCount : Nat
  waves : List (List (String × Nat))
deriving DecidableEq, Repr

/-- The inner `while queue and len(futures) < concurrency` loop of
`build_tree`: pops entries off the front of the queue; an entry whose full
path `f"{root_cmd} {name}"` is already visited, or whose depth exceeds
`maxDepth`, is skipped; otherwise the full path is marked visited and the
entry is dispatched.  Returns (dispatched items in submission order, new
visited list, remaining queue).  `k` is `len(futures)` so far. -/
def fillWave (conc maxd : Nat) (root : String) :
    Nat → List (String × Nat) → List String →
    List (String × Nat) × List String × List (String × Nat)
  | _, [], vis => ([], vis, [])
  | k, (n, d) :: q, vis =>
    if conc ≤ k then ([], vis, (n, d) :: q)
    else if (root ++ " " ++ n) ∈ vis ∨ maxd < d then fillWave conc maxd root k q vis
    else
      ((root ++ " " ++ n, d) :: (fillWave conc maxd root (k + 1) q ((root ++ " " ++ n) :: vis)).1,
       (fillWave conc maxd root (k + 1) q ((root ++ " " ++ n) :: vis)).2.1,
       (fillWave conc maxd root (k + 1) q ((root ++ " " ++ n) :: vis)).2.2)

/-- The work a completed worker contributes to the queue: for each child
name in its document, the entry `(f"{path} {child}", path.count(" ") + 1)`. -/
def waveChildren (docFn : String → CommandDoc) (ds : List (String × Nat)) : List (String × Nat) :=
  ds.flatMap (fun pd => ((docFn pd.1).subcommands).map (fun c => (pd.1 ++ " " ++ c, countSpaces pd.1 + 1)))

/-- The `subdocs[path] = doc` insertions of one wave, in completion order.
`docFn` is the worker oracle: the deterministic result of `process_one`
(binary resolution, help capture, cache-then-parse) for a dispatched path. -/
def waveDocs (docFn : String → CommandDoc) (ds : List (String × Nat)) : List (String × CommandDoc) :=
  ds.map (fun pd => (pd.1, docFn pd.1))

/-- One wave of the scheduler: fill up to `concurrency` futures from the
queue front, then process every completion of the wave (the
`as_completed` order is the submission order permuted by `reorder`,
indexed by the wave number), appending discovered children to the queue. -/
def waveStep (cfg : CrawlCfg) (docFn : String → CommandDoc)
    (reorder : Nat → List (String × Nat) → List (String × Nat)) (s : CrawlState) : CrawlState :=
  let f := fillWave cfg.concurrency cfg.maxDepth cfg.rootCmd 0 s.queue s.visited
  let ds := reorder s.waves.length f.1
  { queue := f.2.2 ++ waveChildren docFn ds,
    visited := f.2.1,
    subdocs := s.subdocs ++ waveDocs docFn ds,
    visitedCount := s.visitedCount + ds.length,
    waves := s.waves ++ [f.1] }

/-- The outer `while queue:` loop of `build_tree`, bounded by `fuel` (the
Python loop runs until the queue drains; a run is complete when the final
queue is empty). -/
def crawl (cfg : CrawlCfg) (docFn : String → CommandDoc)
    (reorder : Nat → List (String × Nat) → List (String × Nat)) :
    Nat → CrawlState → CrawlState
  | 0, s => s
  | fuel + 1, s => if s.queue = [] then s else crawl cfg docFn reorder fuel (waveStep cfg docFn reorder s)

/-- The initial scheduler state of `build_tree` (interactive subcommand
review disabled, as in the default configuration): the queue is seeded
with `(name, 1)` for each child of the root document, and the visited set
holds the root document's path. -/
def initState (rootDoc : CommandDoc) : CrawlState :=
  { queue := rootDoc.subcommands.map (fun n => (n, 1)),
    visited := [rootDoc.path], subdocs := [], visitedCount := 0, waves := [] }

/-- Python `subdocs[k]` for a key known to be present (total here via a
default, as dict indexing in the source presumes membership). -/
def dictGet (m : List (String × CommandDoc)) (k : String) : CommandDoc :=
  (List.lookup k m).getD { name := "", path := "", help_text := "" }

/-- Embedding of `build_tree` from `cmdsaw/discovery.py` (scheduler and
aggregation).  `docFn` is the worker oracle (see `waveDocs`); the root
document is `docFn rootCmd`, the root parse with `command_path=root_cmd`.
`version`, `helpText`, `binPath` and `capturedAt` are the root-level
capture results and the `now_iso()` clock, threaded as parameters. -/
def build_tree (cfg : CrawlCfg) (docFn : String → CommandDoc)
    (reorder : Nat → List (String × Nat) → List (String × Nat)) (fuel : Nat)
    (version : Option String) (helpText binPath capturedAt : String) :
    CmdSawResult × List CommandDoc :=
  let rootDoc := docFn cfg.rootCmd
  let final := crawl cfg docFn reorder fuel (initState rootDoc)
  let keys := pySorted (final.subdocs.map Prod.fst)
  let tool : ToolDoc :=
    { command := cfg.rootCmd, version := version, help_text := helpText,
      invocation := [binPath], options := rootDoc.options, positionals := rootDoc.positionals,
      subcommands := (keys.filter (fun k => countSpaces k = 1)).map (dictGet final.subdocs),
      captured_at := capturedAt }
  let diag : ParseDiagnostics :=
    { visited_commands := final.visitedCount, version_extracted := pyTruthy version }
  ({ schema_version := SCHEMA_VERSION, tool := tool, diagnostics := diag },
   rootDoc :: keys.map (dictGet final.subdocs))

/-- The final crawl state reached by `build_tree`, exposed for the
scheduling statements. -/
def crawlFinal (cfg : CrawlCfg) (docFn : String → CommandDoc)
    (reorder : Nat → List (String × Nat) → List (String × Nat)) (fuel : Nat) : CrawlState :=
  crawl cfg docFn reorder fuel (initState (docFn cfg.rootCmd))

/-! ## Derived definitions used by the verification -/

/-- A `structured.invoke` stub that raises a validation error on every
attempt. -/
def failingAttempt : String → Except ValidationError CommandDoc :=
  fun _ => Except.error {}

/-- The degraded document produced for a path once every parse attempt has
failed (the `.ok` payload of `fallbackDoc` for a tokenizable path). -/
def degradedDoc (command_path help_text : String) : CommandDoc :=
  { name := ((splitWs command_path).getLast?).getD "", path := command_path,
    help_text := help_text }

/-- A concrete worker oracle: the root lists one child `a`, and `tool a`
lists one child `c`; everything else is a leaf.  Documents carry their own
dispatched path. -/
def c1DocFn (p : String) : CommandDoc :=
  if p = "tool" then { name := p, path := p, help_text := "h", subcommands := ["a"] }
  else if p = "tool a" then { name := p, path := p, help_text := "h", subcommands := ["c"] }
  else { name := p, path := p, help_text := "h" }

/-- A concrete worker oracle for the aggregation statements: the root
lists children `b` and `a`; both are leaves. -/
def c9DocFn (p : String) : CommandDoc :=
  if p = "tool" then { name := p, path := p, help_text := "h", subcommands := ["b", "a"] }
  else { name := p, path := p, help_text := "h" }

/-- The set of full paths the scheduler can ever dispatch, as a closure
independent of worker completion order: a seed entry `(n, 1)` from the
root document is dispatchable when the depth bound admits depth 1 and its
full path is not the root document's path; a child `c` of a dispatchable
path `p` is dispatchable when its recorded depth `countSpaces p + 1` is
within the bound and its full path (the root command prepended to
`p ++ " " ++ c`, as the scheduler builds it) is not the root document's
path. -/
inductive Canon (cfg : CrawlCfg) (docFn : String → CommandDoc) : String → Prop where
  | init (n : String) :
      n ∈ (docFn cfg.rootCmd).subcommands → 1 ≤ cfg.maxDepth →
      cfg.rootCmd ++ " " ++ n ≠ (docFn cfg.rootCmd).path →
      Canon cfg docFn (cfg.rootCmd ++ " " ++ n)
  | step (p c : String) :
      Canon cfg docFn p → c ∈ (docFn p).subcommands →
      countSpaces p + 1 ≤ cfg.maxDepth →
      cfg.rootCmd ++ " " ++ (p ++ " " ++ c) ≠ (docFn cfg.rootCmd).path →
      Canon cfg docFn (cfg.rootCmd ++ " " ++ (p ++ " " ++ c))

/-- A queue entry justified by the crawl semantics: either a seed entry
from the root document at depth 1, or a child entry of a dispatchable
parent with the recorded depth the scheduler assigns. -/
def entryOK (cfg : CrawlCfg) (docFn : String → CommandDoc) (e : String × Nat) : Prop :=
  (e.2 = 1 ∧ e.1 ∈ (docFn cfg.rootCmd).subcommands) ∨
  (∃ p c, Canon cfg docFn p ∧ c ∈ (docFn p).subcommands ∧
    e.1 = p ++ " " ++ c ∧ e.2 = countSpaces p + 1)

/-- The scheduler-loop invariant at wave boundaries: every queue entry is
justified, every visited path is the root path or dispatchable, the
visited list is exactly the root path together with the completed keys
(without duplicates), and every completed document is the worker oracle's
output for its key. -/
def stateOK (cfg : CrawlCfg) (docFn : String → CommandDoc) (s : CrawlState) : Prop :=
  (∀ e ∈ s.queue, entryOK cfg docFn e) ∧
  (∀ p ∈ s.visited, p = (docFn cfg.rootCmd).path ∨ Canon cfg docFn p) ∧
  (docFn cfg.rootCmd).path ∈ s.visited ∧
  s.visited.Nodup ∧
  (∀ q ∈ s.subdocs, q.2 = docFn q.1) ∧
  (∀ p, p ∈ s.visited ↔ (p = (docFn cfg.rootCmd).path ∨ p ∈ s.subdocs.map Prod.fst)) ∧
  (s.subdocs.map Prod.fst).Nodup ∧
  (docFn cfg.rootCmd).path ∉ s.subdocs.map Prod.fst

/-! ## Theorems -/

/-- C7: for every key tuple and every JSON-serializable entry, `set`
followed by `get` with the identical four components returns exactly the
stored entry. -/
theorem cache_set_get_roundtrip (fs : CacheFs) (root command_path : String)
    (version : Option String) (model help_text : String) (data : Json) :
    ParseCache.get (ParseCache.set fs root command_path version model help_text data)
      root command_path version model help_text = Option.some data := by
  simp [ParseCache.get, ParseCache.set, List.lookup]

/-- C6 counterexample: storing under version `"none"` and reading back with
version `None` changes exactly one of the four key components, yet `get`
returns the stored entry rather than a miss, because `version or 'none'`
collapses `None` (and `""`) with the literal string `"none"` in the key. -/
theorem cache_version_none_alias_hit :
    ParseCache.get (ParseCache.set [] "root" "p" (Option.some "none") "m" "h" Json.null)
      "root" "p" Option.none "m" "h" = Option.some Json.null ∧
    Option.some "none" ≠ (Option.none : Option String) := by
  exact ⟨rfl, by simp⟩

/-- C6 (amended): changing exactly one of the four key components between
`set` and a subsequent `get` returns a miss whenever the two derived
storage keys differ (which fails only for the `None`/`""`/`"none"` version
aliases and for sha256-prefix collisions of the composite key). -/
theorem cache_changed_component_miss
    (root p₁ m₁ h₁ : String) (v₁ : Option String) (p₂ m₂ h₂ : String) (v₂ : Option String)
    (data : Json)
    (hone : (p₁ ≠ p₂ ∧ v₁ = v₂ ∧ m₁ = m₂ ∧ h₁ = h₂) ∨
            (p₁ = p₂ ∧ v₁ ≠ v₂ ∧ m₁ = m₂ ∧ h₁ = h₂) ∨
            (p₁ = p₂ ∧ v₁ = v₂ ∧ m₁ ≠ m₂ ∧ h₁ = h₂) ∨
            (p₁ = p₂ ∧ v₁ = v₂ ∧ m₁ = m₂ ∧ h₁ ≠ h₂))
    (hkey : ParseCache.key_path root p₁ v₁ m₁ (sha256Hex h₁) ≠
            ParseCache.key_path root p₂ v₂ m₂ (sha256Hex h₂)) :
    ParseCache.get (ParseCache.set [] root p₁ v₁ m₁ h₁ data) root p₂ v₂ m₂ h₂ =
      Option.none := by
  have hb : (ParseCache.key_path root p₂ v₂ m₂ (sha256Hex h₂) ==
      ParseCache.key_path root p₁ v₁ m₁ (sha256Hex h₁)) = false :=
    beq_eq_false_iff_ne.mpr (fun h => hkey h.symm)
  simp [ParseCache.get, ParseCache.set, List.lookup, hb]

/-- C6 witness: a concrete single-component change (the model) whose keys
differ, so the subsequent `get` misses. -/
theorem cache_changed_component_miss_witness :
    ParseCache.get (ParseCache.set [] "root" "p" (Option.some "1") "m1" "h" Json.null)
      "root" "p" (Option.some "1") "m2" "h" = Option.none :=
  cache_changed_component_miss "root" "p" "m1" "h" (Option.some "1") "p" "m2" "h"
    (Option.some "1") Json.null
    (Or.inr (Or.inr (Or.inl ⟨rfl, rfl, by decide, rfl⟩))) (by decide)

/-- When every attempt fails validation, the retry loop returns the
fallback document after exhausting its budget. -/
theorem parseLoop_allFail (attempt : String → Except ValidationError CommandDoc)
    (command_path help_text : String)
    (hfail : ∀ blob, ∃ e, attempt blob = Except.error e) :
    ∀ (r : Nat) (blob : String),
      parseLoop attempt command_path help_text r blob = fallbackDoc command_path help_text := by
  intro r
  induction r with
  | zero =>
    intro blob
    obtain ⟨e, he⟩ := hfail blob
    simp [parseLoop, he]
  | succ r ih =>
    intro blob
    obtain ⟨e, he⟩ := hfail blob
    simp [parseLoop, he, ih]

/-- `str.split()` is empty exactly when the string is all whitespace. -/
theorem splitWsCore_nil_iff :
    ∀ (fuel : Nat) (cs : List Char), cs.length ≤ fuel →
      (splitWsCore fuel cs = [] ↔ cs.all isPyWs = true) := by
  intro fuel
  induction fuel with
  | zero =>
    intro cs h
    have : cs = [] := List.length_eq_zero.mp (Nat.le_zero.mp h)
    subst this
    simp [splitWsCore]
  | succ fuel ih =>
    intro cs h
    match cs with
    | [] => simp [splitWsCore]
    | c :: cs' =>
      by_cases hw : isPyWs c
      · have := ih cs' (by simpa using h)
        simp [splitWsCore, hw, this]
      · simp [splitWsCore, hw]

/-- C10: when every parse attempt raises a validation error,
`parse_command_help` returns the fallback document only when
`command_path` splits into at least one token (the fallback name is the
last token); an empty or all-whitespace `command_path` raises `IndexError`
in the fallback branch instead. -/
theorem parse_fallback_requires_token
    (command_path help_text : String) (retries : Nat)
    (attempt : String → Except ValidationError CommandDoc)
    (hfail : ∀ blob, ∃ e, attempt blob = Except.error e) :
    parse_command_help command_path help_text retries Option.none attempt =
      (match (splitWs command_path).getLast? with
       | Option.none => Except.error PyExn.indexError
       | Option.some n =>
         Except.ok { name := n, path := command_path, help_text := help_text }) ∧
    (splitWs command_path = [] ↔ command_path.data.all isPyWs = true) := by
  constructor
  · rw [parse_command_help]
    rw [parseLoop_allFail attempt command_path help_text hfail]
    rfl
  · have := splitWsCore_nil_iff command_path.data.length command_path.data (Nat.le_refl _)
    simpa [splitWs] using this

/-- C10 witness: with an always-failing parser, a two-token path degrades
to a document named after its last token, while an all-whitespace path
raises `IndexError`. -/
theorem parse_fallback_requires_token_witness :
    parse_command_help "git stash" "H" 2 Option.none failingAttempt =
      Except.ok { name := "stash", path := "git stash", help_text := "H" } ∧
    parse_command_help " \t " "H" 2 Option.none failingAttempt =
      Except.error PyExn.indexError := by
  constructor
  · exact (parse_fallback_requires_token "git stash" "H" 2 failingAttempt
      (fun blob => ⟨{}, rfl⟩)).1
  · exact (parse_fallback_requires_token " \t " "H" 2 failingAttempt
      (fun blob => ⟨{}, rfl⟩)).1

/-- With an always-failing parser, a tokenizable path parses to its
degraded document. -/
theorem parse_degraded (command_path help_text : String) (retries : Nat)
    (hp : splitWs command_path ≠ []) :
    parse_command_help command_path help_text retries Option.none failingAttempt =
      Except.ok (degradedDoc command_path help_text) := by
  have h := (parse_fallback_requires_token command_path help_text retries failingAttempt
    (fun blob => ⟨{}, rfl⟩)).1
  rw [h]
  match hl : (splitWs command_path).getLast? with
  | Option.none => exact absurd (List.getLast?_eq_none_iff.mp hl) hp
  | Option.some n => simp [degradedDoc, hl]

/-- A crawl from an empty queue is already complete. -/
theorem crawl_empty (cfg : CrawlCfg) (docFn : String → CommandDoc)
    (reorder : Nat → List (String × Nat) → List (String × Nat)) (s : CrawlState)
    (h : s.queue = []) : ∀ fuel, crawl cfg docFn reorder fuel s = s := by
  intro fuel
  cases fuel with
  | zero => rfl
  | succ fuel => simp [crawl, h]

/-- C3 counterexample: with a parser stub that always raises validation
errors and `retries=2`, the crawl completes with the degraded root
document, but the diagnostics retry counter is NOT 2: nothing in the
source ever increments `llm_retries`. -/
theorem crawl_degraded_retry_counter_stays_zero :
    parse_command_help "tool" "H" 2 Option.none failingAttempt =
      Except.ok (degradedDoc "tool" "H") ∧
    (build_tree ⟨"tool", 3, 2⟩ (fun p => degradedDoc p "H") (fun _ l => l) 10
      Option.none "H" "/bin/tool" "T").1.diagnostics.llm_retries ≠ 2 := by
  exact ⟨rfl, by decide⟩

/-- C3 (amended): with a parser that raises a validation error on every
attempt, a crawl with `retries=2` per node still terminates and yields the
degraded root document — name, path and help text kept, with empty
options, positionals and subcommands — while the diagnostics retry
counter `llm_retries` is not incremented: it remains 0. -/
theorem crawl_degraded_terminates
    (rootCmd : String) (maxDepth concurrency fuel : Nat) (helpFn : String → String)
    (reorder : Nat → List (String × Nat) → List (String × Nat))
    (version : Option String) (helpText binPath capturedAt : String)
    (hroot : splitWs rootCmd ≠ []) :
    parse_command_help rootCmd (helpFn rootCmd) 2 Option.none failingAttempt =
      Except.ok (degradedDoc rootCmd (helpFn rootCmd)) ∧
    (crawlFinal ⟨rootCmd, maxDepth, concurrency⟩ (fun p => degradedDoc p (helpFn p))
      reorder fuel).queue = [] ∧
    (build_tree ⟨rootCmd, maxDepth, concurrency⟩ (fun p => degradedDoc p (helpFn p))
      reorder fuel version helpText binPath capturedAt).2 =
      [degradedDoc rootCmd (helpFn rootCmd)] ∧
    (build_tree ⟨rootCmd, maxDepth, concurrency⟩ (fun p => degradedDoc p (helpFn p))
      reorder fuel version helpText binPath capturedAt).1.tool.subcommands = [] ∧
    (degradedDoc rootCmd (helpFn rootCmd)).options = [] ∧
    (degradedDoc rootCmd (helpFn rootCmd)).positionals = [] ∧
    (degradedDoc rootCmd (helpFn rootCmd)).subcommands = [] ∧
    (degradedDoc rootCmd (helpFn rootCmd)).path = rootCmd ∧
    (degradedDoc rootCmd (helpFn rootCmd)).help_text = helpFn rootCmd ∧
    (build_tree ⟨rootCmd, maxDepth, concurrency⟩ (fun p => degradedDoc p (helpFn p))
      reorder fuel version helpText binPath capturedAt).1.diagnostics.llm_retries = 0 := by
  have hq : (initState (degradedDoc rootCmd (helpFn rootCmd))).queue = [] := by
    simp [initState, degradedDoc]
  have hc := crawl_empty ⟨rootCmd, maxDepth, concurrency⟩ (fun p => degradedDoc p (helpFn p))
    reorder _ hq fuel
  refine ⟨parse_degraded rootCmd (helpFn rootCmd) 2 hroot, ?_, ?_, ?_, rfl, rfl, rfl, rfl, rfl, ?_⟩
  · simp only [crawlFinal]
    rw [hc, hq]
  · simp only [build_tree]
    rw [hc]
    simp [initState, pySorted, List.insertionSort]
  · simp only [build_tree]
    rw [hc]
    simp [initState, pySorted, List.insertionSort]
  · rfl

/-- C3 witness: a concrete degraded crawl. -/
theorem crawl_degraded_terminates_witness :
    parse_command_help "tool" "H" 2 Option.none failingAttempt =
      Except.ok (degradedDoc "tool" "H") ∧
    (build_tree ⟨"tool", 4, 2⟩ (fun p => degradedDoc p "H") (fun _ l => l) 10
      Option.none "H" "/bin/tool" "T").2 = [degradedDoc "tool" "H"] ∧
    (build_tree ⟨"tool", 4, 2⟩ (fun p => degradedDoc p "H") (fun _ l => l) 10
      Option.none "H" "/bin/tool" "T").1.diagnostics.llm_retries = 0 := by
  have h := crawl_degraded_terminates "tool" 4 2 10 (fun _ => "H") (fun _ l => l)
    Option.none "H" "/bin/tool" "T" (by decide)
  exact ⟨h.1, h.2.2.1, h.2.2.2.2.2.2.2.2.2⟩

/-- C2: a wall-clock timeout makes `run_capture` fail with
`subprocess.TimeoutExpired` carrying the argv and the timeout — never the
repository's `CaptureTimeout` — and `try_help` propagates that exception
instead of degrading the node to empty help text. -/
theorem timeout_not_capture_timeout :
    (∀ (cmdline : List String) (t : Nat) (o : ProcOutcome) (c : List String) (t' : Nat),
      run_capture cmdline t o ≠ Except.error (PyExn.captureTimeout c t')) ∧
    (∀ (commandPath : List String) (hf : String) (rest : List String) (t : Nat) (fmt : String)
      (outcome : List String → ProcOutcome),
      outcome (helpCmdline commandPath fmt hf) = ProcOutcome.timesOut →
      try_help commandPath (hf :: rest) t fmt outcome =
        Except.error (PyExn.timeoutExpired (helpCmdline commandPath fmt hf) t)) := by
  constructor
  · intro cmdline t o c t'
    cases o <;> simp [run_capture]
  · intro commandPath hf rest t fmt outcome h
    simp [try_help, h, run_capture]

/-- C2 witness: the first help invocation times out and the exception
(`TimeoutExpired`, not `CaptureTimeout`, not an empty-help success)
escapes `try_help`. -/
theorem timeout_not_capture_timeout_witness :
    try_help ["foo"] ["--help", "-h", "help"] 5 DEFAULT_SUBCOMMAND_HELP_FORMAT
      (fun _ => ProcOutcome.timesOut) =
      Except.error (PyExn.timeoutExpired ["foo", "--help"] 5) :=
  timeout_not_capture_timeout.2 ["foo"] "--help" ["-h", "help"] 5
    DEFAULT_SUBCOMMAND_HELP_FORMAT (fun _ => ProcOutcome.timesOut) rfl

/-- C8 counterexample: an invocation produces the output `version 7`,
whose first line contains `7` — a match of the spec's pattern
`\d+(\.\d+){0,2}(?:[-+][\w.]*)?` — yet `try_version` returns no version:
the code's `_VERSION_RX` requires at least two dot-separated numeric
components (`\d+\.\d+...`). -/
theorem try_version_spec_pattern_counterexample :
    try_version ["tool"] 5
      (fun c => if c = ["tool", "--version"] then ProcOutcome.completes "version 7" "" 0
                else ProcOutcome.completes "" "" 0) = Except.ok Option.none ∧
    specVersionSearch "version 7" = Option.some "7" := by
  exact ⟨rfl, rfl⟩

/-- C8 (amended): `tryVersionFlags` tries the version flags in order and
returns the first-line extraction of the first output-producing invocation
whose first line matches the code's `_VERSION_RX` pattern
`\d+\.\d+(?:\.\d+){0,2}(?:[-+A-Za-z0-9.]*)?`; when every invocation
completes with no output or no first-line match, it returns no-version
(`none`) rather than an error. -/
theorem try_version_first_match
    (commandPath : List String) (flags : List String) (t : Nat)
    (outcome : List String → ProcOutcome) :
    ((∀ vf ∈ flags, ∃ out code,
        run_capture (commandPath ++ [vf]) t (outcome (commandPath ++ [vf])) =
          Except.ok (out, code) ∧
        (out = "" ∨ extract_version_number (firstLine out) = Option.none)) →
      tryVersionFlags commandPath flags t outcome = Except.ok Option.none) ∧
    (∀ pre vf post out code v, flags = pre ++ vf :: post →
      (∀ u ∈ pre, ∃ out' code',
        run_capture (commandPath ++ [u]) t (outcome (commandPath ++ [u])) =
          Except.ok (out', code') ∧
        (out' = "" ∨ extract_version_number (firstLine out') = Option.none)) →
      run_capture (commandPath ++ [vf]) t (outcome (commandPath ++ [vf])) =
        Except.ok (out, code) →
      out ≠ "" → extract_version_number (firstLine out) = Option.some v →
      tryVersionFlags commandPath flags t outcome = Except.ok (Option.some v)) := by
  constructor
  · induction flags with
    | nil => intro _; rfl
    | cons vf rest ih =>
      intro h
      obtain ⟨out, code, hrun, hmiss⟩ := h vf (List.mem_cons_self vf rest)
      have hrest := ih (fun u hu => h u (List.mem_cons_of_mem vf hu))
      rcases hmiss with hout | hext
      · subst hout
        simp [tryVersionFlags, hrun, hrest]
      · by_cases hout : out = ""
        · subst hout
          simp [tryVersionFlags, hrun, hrest]
        · simp [tryVersionFlags, hrun, hout, hext, hrest]
  · intro pre
    induction pre generalizing flags with
    | nil =>
      intro vf post out code v hfl _ hrun hout hext
      subst hfl
      simp [tryVersionFlags, hrun, hout, hext]
    | cons u pre' ih =>
      intro vf post out code v hfl hpre hrun hout hext
      subst hfl
      obtain ⟨out', code', hrun', hmiss'⟩ := hpre u (List.mem_cons_self u pre')
      have hrest := ih (pre' ++ vf :: post) vf post out code v rfl
        (fun w hw => hpre w (List.mem_cons_of_mem u hw)) hrun hout hext
      rcases hmiss' with hout' | hext'
      · subst hout'
        simp [tryVersionFlags, hrun', hrest]
      · by_cases hout' : out' = ""
        · subst hout'
          simp [tryVersionFlags, hrun', hrest]
        · simp [tryVersionFlags, hrun', hout', hext', hrest]

/-- C8 witness: the first flag's output has no `_VERSION_RX` match on its
first line, the second flag's output does, and that extraction is
returned. -/
theorem try_version_first_match_witness :
    tryVersionFlags ["tool"] ["--version", "-v"] 5
      (fun c => if c = ["tool", "--version"] then ProcOutcome.completes "GNU tool" "" 0
                else ProcOutcome.completes "tool 1.2.3\nmore" "" 0) =
      Except.ok (Option.some "1.2.3") :=
  (try_version_first_match ["tool"] ["--version", "-v"] 5
      (fun c => if c = ["tool", "--version"] then ProcOutcome.completes "GNU tool" "" 0
                else ProcOutcome.completes "tool 1.2.3\nmore" "" 0)).2
    ["--version"] "-v" [] "tool 1.2.3\nmore" 0 "1.2.3" rfl
    (by
      intro u hu
      simp only [List.mem_singleton] at hu
      subst hu
      exact ⟨"GNU tool", 0, rfl, Or.inr rfl⟩)
    rfl (by decide) rfl

/-- C1: at a concrete crawl (root `tool` with child `a`; `tool a` with
child `c`) the complete dispatch trace shows the grandchild dispatched
with the root name prepended twice — `tool tool a c` instead of
`tool a c`: the scheduler enqueues children under their full path but
prepends `root_cmd` again at dequeue time. -/
theorem double_root_dispatch :
    (crawlFinal ⟨"tool", 3, 2⟩ c1DocFn (fun _ l => l) 10).queue = [] ∧
    (crawlFinal ⟨"tool", 3, 2⟩ c1DocFn (fun _ l => l) 10).waves =
      [[("tool a", 1)], [("tool tool a c", 2)]] ∧
    "tool tool a c" ≠ "tool a c" := by
  exact ⟨by decide, by decide, by decide⟩

/-- Unfolding equation: a wave from an empty queue. -/
theorem fillWave_nil (conc maxd : Nat) (root : String) (k : Nat) (vis : List String) :
    fillWave conc maxd root k [] vis = ([], vis, []) := rfl

/-- Unfolding equation: the wave stops once `concurrency` futures are
pending. -/
theorem fillWave_stop {conc k : Nat} (maxd : Nat) (root n : String) (d : Nat)
    (q : List (String × Nat)) (vis : List String) (hk : conc ≤ k) :
    fillWave conc maxd root k ((n, d) :: q) vis = ([], vis, (n, d) :: q) := by
  simp only [fillWave]
  rw [if_pos hk]

/-- Unfolding equation: a visited or too-deep entry is popped and skipped. -/
theorem fillWave_skip {conc k maxd : Nat} {root n : String} {d : Nat}
    (q : List (String × Nat)) {vis : List String} (hk : ¬ conc ≤ k)
    (hs : (root ++ " " ++ n) ∈ vis ∨ maxd < d) :
    fillWave conc maxd root k ((n, d) :: q) vis = fillWave conc maxd root k q vis := by
  simp only [fillWave]
  rw [if_neg hk, if_pos hs]

/-- Unfolding equation: a fresh, in-depth entry is marked visited and
dispatched. -/
theorem fillWave_push {conc k maxd : Nat} {root n : String} {d : Nat}
    (q : List (String × Nat)) {vis : List String} (hk : ¬ conc ≤ k)
    (hs : ¬ ((root ++ " " ++ n) ∈ vis ∨ maxd < d)) :
    fillWave conc maxd root k ((n, d) :: q) vis =
      ((root ++ " " ++ n, d) :: (fillWave conc maxd root (k + 1) q ((root ++ " " ++ n) :: vis)).1,
       (fillWave conc maxd root (k + 1) q ((root ++ " " ++ n) :: vis)).2.1,
       (fillWave conc maxd root (k + 1) q ((root ++ " " ++ n) :: vis)).2.2) := by
  simp only [fillWave]
  rw [if_neg hk, if_neg hs]

/-- Every item a wave dispatches has its recorded depth within the bound. -/
theorem fillWave_depth_le (conc maxd : Nat) (root : String) :
    ∀ (q : List (String × Nat)) (k : Nat) (vis : List String),
      ∀ x ∈ (fillWave conc maxd root k q vis).1, x.2 ≤ maxd := by
  intro q
  induction q with
  | nil => intro k vis x hx; simp [fillWave_nil] at hx
  | cons e q ih =>
    intro k vis x hx
    obtain ⟨n, d⟩ := e
    by_cases hk : conc ≤ k
    · rw [fillWave_stop maxd root n d q vis hk] at hx
      simp at hx
    · by_cases hs : (root ++ " " ++ n) ∈ vis ∨ maxd < d
      · rw [fillWave_skip q hk hs] at hx
        exact ih k vis x hx
      · rw [fillWave_push q hk hs] at hx
        rcases List.mem_cons.mp hx with h | h
        · rw [h]
          exact Nat.le_of_not_lt (fun hlt => hs (Or.inr hlt))
        · exact ih (k + 1) ((root ++ " " ++ n) :: vis) x h

/-- C5: in every crawl, no queued item whose recorded depth exceeds the
configured maximum is ever dispatched: every item of every wave of the
dispatch trace has depth at most `maxDepth` (deeper items are popped and
skipped without submission). -/
theorem depth_bound_dispatch (cfg : CrawlCfg) (docFn : String → CommandDoc)
    (reorder : Nat → List (String × Nat) → List (String × Nat)) (fuel : Nat) :
    ∀ w ∈ (crawlFinal cfg docFn reorder fuel).waves, ∀ x ∈ w, x.2 ≤ cfg.maxDepth := by
  have main : ∀ (fuel : Nat) (s : CrawlState),
      (∀ w ∈ s.waves, ∀ x ∈ w, x.2 ≤ cfg.maxDepth) →
      ∀ w ∈ (crawl cfg docFn reorder fuel s).waves, ∀ x ∈ w, x.2 ≤ cfg.maxDepth := by
    intro fuel
    induction fuel with
    | zero => intro s h; exact h
    | succ fuel ih =>
      intro s h
      by_cases hq : s.queue = []
      · simpa [crawl, hq] using h
      · rw [show crawl cfg docFn reorder (fuel + 1) s =
            crawl cfg docFn reorder fuel (waveStep cfg docFn reorder s) by simp [crawl, hq]]
        refine ih (waveStep cfg docFn reorder s) ?_
        intro w hw x hx
        rcases List.mem_append.mp hw with h' | h'
        · exact h w h' x hx
        · rw [List.mem_singleton.mp h'] at hx
          exact fillWave_depth_le cfg.concurrency cfg.maxDepth cfg.rootCmd s.queue 0 s.visited x hx
  exact main fuel (initState (docFn cfg.rootCmd)) (by simp [initState])

/-- C5 witness: with `maxDepth = 1` only the depth-1 child is dispatched,
and its recorded depth meets the bound. -/
theorem depth_bound_dispatch_witness :
    [("tool a", 1)] ∈ (crawlFinal ⟨"tool", 1, 2⟩ c1DocFn (fun _ l => l) 10).waves ∧
    ("tool a", 1) ∈ [("tool a", 1)] ∧ 1 ≤ 1 :=
  ⟨by decide, by decide,
   depth_bound_dispatch ⟨"tool", 1, 2⟩ c1DocFn (fun _ l => l) 10 [("tool a", 1)]
     (by decide) ("tool a", 1) (by decide)⟩

/-- A wave dispatches at most `concurrency - k` further items once `k`
futures are pending. -/
theorem fillWave_length_le (conc maxd : Nat) (root : String) :
    ∀ (q : List (String × Nat)) (k : Nat) (vis : List String),
      (fillWave conc maxd root k q vis).1.length ≤ conc - k := by
  intro q
  induction q with
  | nil => intro k vis; simp [fillWave_nil]
  | cons e q ih =>
    intro k vis
    obtain ⟨n, d⟩ := e
    by_cases hk : conc ≤ k
    · simp [fillWave_stop maxd root n d q vis hk]
    · by_cases hs : (root ++ " " ++ n) ∈ vis ∨ maxd < d
      · rw [fillWave_skip q hk hs]
        exact ih k vis
      · rw [fillWave_push q hk hs]
        have := ih (k + 1) ((root ++ " " ++ n) :: vis)
        simp only [List.length_cons]
        omega

/-- Every dispatched item of a wave arises from an entry of the queue the
wave started from: its path is the root command prepended to the entry's
name, at the entry's depth. -/
theorem fillWave_from_queue (conc maxd : Nat) (root : String) :
    ∀ (q : List (String × Nat)) (k : Nat) (vis : List String),
      ∀ x ∈ (fillWave conc maxd root k q vis).1,
        ∃ n, (n, x.2) ∈ q ∧ x.1 = root ++ " " ++ n := by
  intro q
  induction q with
  | nil => intro k vis x hx; simp [fillWave_nil] at hx
  | cons e q ih =>
    intro k vis x hx
    obtain ⟨n, d⟩ := e
    by_cases hk : conc ≤ k
    · rw [fillWave_stop maxd root n d q vis hk] at hx
      simp at hx
    · by_cases hs : (root ++ " " ++ n) ∈ vis ∨ maxd < d
      · rw [fillWave_skip q hk hs] at hx
        obtain ⟨m, hm, he⟩ := ih k vis x hx
        exact ⟨m, List.mem_cons_of_mem _ hm, he⟩
      · rw [fillWave_push q hk hs] at hx
        rcases List.mem_cons.mp hx with h | h
        · exact ⟨n, by simp [h], by simp [h]⟩
        · obtain ⟨m, hm, he⟩ := ih (k + 1) ((root ++ " " ++ n) :: vis) x h
          exact ⟨m, List.mem_cons_of_mem _ hm, he⟩

/-- The queue remainder a wave leaves is a suffix of the queue it started
from (entries are only popped off the front). -/
theorem fillWave_rest_suffix (conc maxd : Nat) (root : String) :
    ∀ (q : List (String × Nat)) (k : Nat) (vis : List String),
      (fillWave conc maxd root k q vis).2.2 <:+ q := by
  intro q
  induction q with
  | nil => intro k vis; simp [fillWave_nil]
  | cons e q ih =>
    intro k vis
    obtain ⟨n, d⟩ := e
    by_cases hk : conc ≤ k
    · simp [fillWave_stop maxd root n d q vis hk]
    · by_cases hs : (root ++ " " ++ n) ∈ vis ∨ maxd < d
      · rw [fillWave_skip q hk hs]
        exact List.IsSuffix.trans (ih k vis) (List.suffix_cons (n, d) q)
      · rw [fillWave_push q hk hs]
        exact List.IsSuffix.trans (ih (k + 1) ((root ++ " " ++ n) :: vis)) (List.suffix_cons (n, d) q)

/-- C4: wave scheduling.  Every wave of the dispatch trace submits at most
`concurrency` items; a wave's items all come from entries already in the
queue when the wave started (so a child discovered while a wave runs is
never dispatched within that wave); and after the wave completes, the
queue is the undispatched remainder of the starting queue followed by
exactly the children the wave's completions discovered — so such children
are candidates for wave N+1 at the earliest. -/
theorem wave_scheduling (cfg : CrawlCfg) (docFn : String → CommandDoc)
    (reorder : Nat → List (String × Nat) → List (String × Nat)) (fuel : Nat) :
    (∀ w ∈ (crawlFinal cfg docFn reorder fuel).waves, w.length ≤ cfg.concurrency) ∧
    (∀ s : CrawlState,
      (∀ x ∈ (fillWave cfg.concurrency cfg.maxDepth cfg.rootCmd 0 s.queue s.visited).1,
        ∃ n, (n, x.2) ∈ s.queue ∧ x.1 = cfg.rootCmd ++ " " ++ n) ∧
      (waveStep cfg docFn reorder s).waves =
        s.waves ++ [(fillWave cfg.concurrency cfg.maxDepth cfg.rootCmd 0 s.queue s.visited).1] ∧
      ∃ rest, rest <:+ s.queue ∧
        (waveStep cfg docFn reorder s).queue =
          rest ++ waveChildren docFn
            (reorder s.waves.length
              (fillWave cfg.concurrency cfg.maxDepth cfg.rootCmd 0 s.queue s.visited).1)) := by
  constructor
  · have main : ∀ (fuel : Nat) (s : CrawlState),
        (∀ w ∈ s.waves, w.length ≤ cfg.concurrency) →
        ∀ w ∈ (crawl cfg docFn reorder fuel s).waves, w.length ≤ cfg.concurrency := by
      intro fuel
      induction fuel with
      | zero => intro s h; exact h
      | succ fuel ih =>
        intro s h
        by_cases hq : s.queue = []
        · simpa [crawl, hq] using h
        · rw [show crawl cfg docFn reorder (fuel + 1) s =
              crawl cfg docFn reorder fuel (waveStep cfg docFn reorder s) by simp [crawl, hq]]
          refine ih (waveStep cfg docFn reorder s) ?_
          intro w hw
          rcases List.mem_append.mp hw with h' | h'
          · exact h w h'
          · rw [List.mem_singleton.mp h']
            simpa using fillWave_length_le cfg.concurrency cfg.maxDepth cfg.rootCmd s.queue 0 s.visited
    exact main fuel (initState (docFn cfg.rootCmd)) (by simp [initState])
  · intro s
    exact ⟨fillWave_from_queue cfg.concurrency cfg.maxDepth cfg.rootCmd s.queue 0 s.visited, rfl,
      (fillWave cfg.concurrency cfg.maxDepth cfg.rootCmd 0 s.queue s.visited).2.2,
      fillWave_rest_suffix cfg.concurrency cfg.maxDepth cfg.rootCmd s.queue 0 s.visited, rfl⟩

/-- C4 witness: with `concurrency = 1` each wave of a two-child root is a
single item. -/
theorem wave_scheduling_witness :
    [("tool b", 1)] ∈ (crawlFinal ⟨"tool", 3, 1⟩ c9DocFn (fun _ l => l) 10).waves ∧
    [("tool b", 1)].length ≤ 1 :=
  ⟨by decide,
   (wave_scheduling ⟨"tool", 3, 1⟩ c9DocFn (fun _ l => l) 10).1 [("tool b", 1)] (by decide)⟩

/-- The lexicographic comparison is total. -/
theorem strLeAux_total : ∀ (a b : List Char), strLeAux a b = true ∨ strLeAux b a = true := by
  intro a
  induction a with
  | nil => intro b; left; rfl
  | cons x xs ih =>
    intro b
    match b with
    | [] => right; rfl
    | y :: ys =>
      rcases lt_trichotomy x y with h | h | h
      · left; simp [strLeAux, h]
      · subst h
        rcases ih ys with h' | h'
        · left; simpa [strLeAux, lt_irrefl] using h'
        · right; simpa [strLeAux, lt_irrefl] using h'
      · right; simp [strLeAux, h]

/-- The lexicographic comparison is transitive. -/
theorem strLeAux_trans : ∀ (a b c : List Char),
    strLeAux a b = true → strLeAux b c = true → strLeAux a c = true := by
  intro a
  induction a with
  | nil => intro b c _ _; rfl
  | cons x xs ih =>
    intro b c hab hbc
    match b, c with
    | [], _ => simp [strLeAux] at hab
    | _ :: _, [] => simp [strLeAux] at hbc
    | y :: ys, z :: zs =>
      rcases lt_trichotomy x y with h1 | h1 | h1
      · rcases lt_trichotomy y z with h2 | h2 | h2
        · simp [strLeAux, lt_trans h1 h2]
        · subst h2; simp [strLeAux, h1]
        · simp [strLeAux, h2, not_lt_of_lt h2] at hbc
      · subst h1
        rcases lt_trichotomy x z with h2 | h2 | h2
        · simp [strLeAux, h2]
        · subst h2
          simp only [strLeAux, lt_irrefl, if_false] at hab hbc ⊢
          exact ih ys zs hab hbc
        · simp [strLeAux, h2, not_lt_of_lt h2] at hbc
      · simp [strLeAux, h1, not_lt_of_lt h1] at hab

/-- The lexicographic comparison is antisymmetric. -/
theorem strLeAux_antisymm : ∀ (a b : List Char),
    strLeAux a b = true → strLeAux b a = true → a = b := by
  intro a
  induction a with
  | nil =>
    intro b hab hba
    match b with
    | [] => rfl
    | y :: ys => simp [strLeAux] at hba
  | cons x xs ih =>
    intro b hab hba
    match b with
    | [] => simp [strLeAux] at hab
    | y :: ys =>
      rcases lt_trichotomy x y with h | h | h
      · simp [strLeAux, h, not_lt_of_lt h] at hba
      · subst h
        simp only [strLeAux, lt_irrefl, if_false] at hab hba
        rw [ih ys hab hba]
      · simp [strLeAux, h, not_lt_of_lt h] at hab

/-- `pySorted` output is sorted under the Python string order. -/
theorem pySorted_sorted (l : List String) : List.Sorted strLeProp (pySorted l) :=
  @List.sorted_insertionSort String strLeProp _
    ⟨fun a b => strLeAux_total a.data b.data⟩
    ⟨fun a b c => strLeAux_trans a.data b.data c.data⟩ l

/-- `pySorted` permutes its input. -/
theorem pySorted_perm (l : List String) : (pySorted l).Perm l :=
  List.perm_insertionSort strLeProp l

/-- Two duplicate-free lists with the same members sort identically. -/
theorem pySorted_congr {l₁ l₂ : List String} (h₁ : l₁.Nodup) (h₂ : l₂.Nodup)
    (h : ∀ a, a ∈ l₁ ↔ a ∈ l₂) : pySorted l₁ = pySorted l₂ := by
  have hp : l₁.Perm l₂ := (List.perm_ext_iff_of_nodup h₁ h₂).mpr h
  have hp' : (pySorted l₁).Perm (pySorted l₂) :=
    (pySorted_perm l₁).trans (hp.trans (pySorted_perm l₂).symm)
  exact @List.eq_of_perm_of_sorted String strLeProp
    ⟨fun a b h1 h2 => by
      cases a; cases b
      exact congrArg String.mk (strLeAux_antisymm _ _ h1 h2)⟩
    _ _ hp' (pySorted_sorted l₁) (pySorted_sorted l₂)

/-- A wave's resulting visited list is the dispatched paths (most recent
first) on top of the starting visited list. -/
theorem fillWave_vis_eq (conc maxd : Nat) (root : String) :
    ∀ (q : List (String × Nat)) (k : Nat) (vis : List String),
      (fillWave conc maxd root k q vis).2.1 =
        ((fillWave conc maxd root k q vis).1.map Prod.fst).reverse ++ vis := by
  intro q
  induction q with
  | nil => intro k vis; simp [fillWave_nil]
  | cons e q ih =>
    intro k vis
    obtain ⟨n, d⟩ := e
    by_cases hk : conc ≤ k
    · simp [fillWave_stop maxd root n d q vis hk]
    · by_cases hs : (root ++ " " ++ n) ∈ vis ∨ maxd < d
      · rw [fillWave_skip q hk hs]
        exact ih k vis
      · rw [fillWave_push q hk hs]
        simp only [List.map_cons, List.reverse_cons, List.append_assoc, List.singleton_append]
        exact ih (k + 1) ((root ++ " " ++ n) :: vis)

/-- The starting visited list survives a wave. -/
theorem fillWave_vis_superset (conc maxd : Nat) (root : String)
    (q : List (String × Nat)) (k : Nat) (vis : List String) :
    ∀ p ∈ vis, p ∈ (fillWave conc maxd root k q vis).2.1 := by
  intro p hp
  rw [fillWave_vis_eq]
  exact List.mem_append_right _ hp

/-- Dispatched paths were not visited when the wave started. -/
theorem fillWave_fresh (conc maxd : Nat) (root : String) :
    ∀ (q : List (String × Nat)) (k : Nat) (vis : List String),
      ∀ x ∈ (fillWave conc maxd root k q vis).1, x.1 ∉ vis := by
  intro q
  induction q with
  | nil => intro k vis x hx; simp [fillWave_nil] at hx
  | cons e q ih =>
    intro k vis x hx
    obtain ⟨n, d⟩ := e
    by_cases hk : conc ≤ k
    · rw [fillWave_stop maxd root n d q vis hk] at hx
      simp at hx
    · by_cases hs : (root ++ " " ++ n) ∈ vis ∨ maxd < d
      · rw [fillWave_skip q hk hs] at hx
        exact ih k vis x hx
      · rw [fillWave_push q hk hs] at hx
        rcases List.mem_cons.mp hx with h | h
        · rw [h]
          exact fun hmem => hs (Or.inl hmem)
        · intro hmem
          exact ih (k + 1) ((root ++ " " ++ n) :: vis) x h (List.mem_cons_of_mem _ hmem)

/-- A wave dispatches pairwise-distinct paths (the check-and-insert into
the visited set is atomic with respect to queue draining). -/
theorem fillWave_nodup (conc maxd : Nat) (root : String) :
    ∀ (q : List (String × Nat)) (k : Nat) (vis : List String),
      ((fillWave conc maxd root k q vis).1.map Prod.fst).Nodup := by
  intro q
  induction q with
  | nil => intro k vis; simp [fillWave_nil]
  | cons e q ih =>
    intro k vis
    obtain ⟨n, d⟩ := e
    by_cases hk : conc ≤ k
    · simp [fillWave_stop maxd root n d q vis hk]
    · by_cases hs : (root ++ " " ++ n) ∈ vis ∨ maxd < d
      · rw [fillWave_skip q hk hs]
        exact ih k vis
      · rw [fillWave_push q hk hs]
        simp only [List.map_cons, List.nodup_cons]
        refine ⟨?_, ih (k + 1) ((root ++ " " ++ n) :: vis)⟩
        intro hmem
        obtain ⟨x, hx, hx1⟩ := List.mem_map.mp hmem
        exact fillWave_fresh conc maxd root q (k + 1) ((root ++ " " ++ n) :: vis) x hx
          (by rw [hx1]; exact List.mem_cons_self _ _)

/-- What becomes of a queue entry during a wave: its full path ends up
visited, or the entry survives in the remaining queue, or its depth
exceeds the bound. -/
theorem fillWave_mem_cases (conc maxd : Nat) (root : String) :
    ∀ (q : List (String × Nat)) (k : Nat) (vis : List String) (n : String) (d : Nat),
      (n, d) ∈ q →
      (root ++ " " ++ n) ∈ (fillWave conc maxd root k q vis).2.1 ∨
      (n, d) ∈ (fillWave conc maxd root k q vis).2.2 ∨ maxd < d := by
  intro q
  induction q with
  | nil => intro k vis n d h; simp at h
  | cons e q ih =>
    intro k vis n d hmem
    obtain ⟨m, e'⟩ := e
    by_cases hk : conc ≤ k
    · rw [fillWave_stop maxd root m e' q vis hk]
      exact Or.inr (Or.inl hmem)
    · rcases List.mem_cons.mp hmem with h | h
      · have hn : n = m ∧ d = e' := by
          constructor <;> [exact congrArg Prod.fst h; exact congrArg Prod.snd h]
        obtain ⟨hn1, hn2⟩ := hn
        subst hn1; subst hn2
        by_cases hs : (root ++ " " ++ n) ∈ vis ∨ maxd < d
        · rcases hs with hv | hd
          · rw [fillWave_skip q hk (Or.inl hv)]
            exact Or.inl (fillWave_vis_superset conc maxd root q k vis _ hv)
          · exact Or.inr (Or.inr hd)
        · rw [fillWave_push q hk hs]
          exact Or.inl (fillWave_vis_superset conc maxd root q (k + 1)
            ((root ++ " " ++ n) :: vis) _ (List.mem_cons_self _ _))
      · by_cases hs : (root ++ " " ++ m) ∈ vis ∨ maxd < e'
        · rw [fillWave_skip q hk hs]
          exact ih k vis n d h
        · rw [fillWave_push q hk hs]
          rcases ih (k + 1) ((root ++ " " ++ m) :: vis) n d h with h' | h' | h'
          · exact Or.inl h'
          · exact Or.inr (Or.inl h')
          · exact Or.inr (Or.inr h')

/-- Unfolding equation of the scheduler loop for a nonempty queue. -/
theorem crawl_succ (cfg : CrawlCfg) (docFn : String → CommandDoc)
    (reorder : Nat → List (String × Nat) → List (String × Nat)) (fuel : Nat)
    (s : CrawlState) (hq : s.queue ≠ []) :
    crawl cfg docFn reorder (fuel + 1) s = crawl cfg docFn reorder fuel (waveStep cfg docFn reorder s) := by
  simp [crawl, hq]

/-- Composition of scheduler-loop runs. -/
theorem crawl_add (cfg : CrawlCfg) (docFn : String → CommandDoc)
    (reorder : Nat → List (String × Nat) → List (String × Nat)) :
    ∀ (a b : Nat) (s : CrawlState),
      crawl cfg docFn reorder (a + b) s = crawl cfg docFn reorder b (crawl cfg docFn reorder a s) := by
  intro a
  induction a with
  | zero => intro b s; rw [Nat.zero_add]; rfl
  | succ a ih =>
    intro b s
    by_cases hq : s.queue = []
    · rw [crawl_empty cfg docFn reorder s hq (a + 1 + b), crawl_empty cfg docFn reorder s hq (a + 1),
        crawl_empty cfg docFn reorder s hq b]
    · rw [show a + 1 + b = (a + b) + 1 by omega, crawl_succ cfg docFn reorder (a + b) s hq,
        crawl_succ cfg docFn reorder a s hq, ih b (waveStep cfg docFn reorder s)]

/-- Visited paths persist across a wave. -/
theorem visited_mono_step (cfg : CrawlCfg) (docFn : String → CommandDoc)
    (reorder : Nat → List (String × Nat) → List (String × Nat)) (s : CrawlState) :
    ∀ p ∈ s.visited, p ∈ (waveStep cfg docFn reorder s).visited := by
  intro p hp
  exact fillWave_vis_superset cfg.concurrency cfg.maxDepth cfg.rootCmd s.queue 0 s.visited p hp

/-- Visited paths persist across the whole run. -/
theorem visited_mono_crawl (cfg : CrawlCfg) (docFn : String → CommandDoc)
    (reorder : Nat → List (String × Nat) → List (String × Nat)) :
    ∀ (fuel : Nat) (s : CrawlState), ∀ p ∈ s.visited, p ∈ (crawl cfg docFn reorder fuel s).visited := by
  intro fuel
  induction fuel with
  | zero => intro s p hp; exact hp
  | succ fuel ih =>
    intro s p hp
    by_cases hq : s.queue = []
    · rw [crawl_empty cfg docFn reorder s hq]
      exact hp
    · rw [crawl_succ cfg docFn reorder fuel s hq]
      exact ih (waveStep cfg docFn reorder s) p (visited_mono_step cfg docFn reorder s p hp)

/-- The keys a wave's completions add are exactly the dispatched paths. -/
theorem waveDocs_keys (docFn : String → CommandDoc) (ds : List (String × Nat)) :
    (waveDocs docFn ds).map Prod.fst = ds.map Prod.fst := by
  simp [waveDocs]

/-- Every path a wave dispatches is in the canonical dispatchable set. -/
theorem fillWave_canon (cfg : CrawlCfg) (docFn : String → CommandDoc) (s : CrawlState)
    (h : stateOK cfg docFn s) :
    ∀ x ∈ (fillWave cfg.concurrency cfg.maxDepth cfg.rootCmd 0 s.queue s.visited).1,
      Canon cfg docFn x.1 := by
  obtain ⟨hQ, _, hroot, _, _, _, _, _⟩ := h
  intro x hx
  obtain ⟨n, hnq, hfp⟩ := fillWave_from_queue cfg.concurrency cfg.maxDepth cfg.rootCmd
    s.queue 0 s.visited x hx
  have hd : x.2 ≤ cfg.maxDepth := fillWave_depth_le cfg.concurrency cfg.maxDepth cfg.rootCmd
    s.queue 0 s.visited x hx
  have hfresh : x.1 ∉ s.visited := fillWave_fresh cfg.concurrency cfg.maxDepth cfg.rootCmd
    s.queue 0 s.visited x hx
  have hne : x.1 ≠ (docFn cfg.rootCmd).path := fun he => hfresh (he ▸ hroot)
  rcases hQ (n, x.2) hnq with ⟨h1, h2⟩ | ⟨p, c, hcanon, hcsub, hn, hdep⟩
  · rw [hfp]
    exact Canon.init n h2 (by simp only at h1; omega) (by rw [← hfp]; exact hne)
  · rw [hfp]
    simp only at hn hdep
    rw [hn]
    refine Canon.step p c hcanon hcsub (by omega) ?_
    rw [← hn, ← hfp]
    exact hne

/-- The scheduler-loop invariant holds initially. -/
theorem stateOK_init (cfg : CrawlCfg) (docFn : String → CommandDoc) :
    stateOK cfg docFn (initState (docFn cfg.rootCmd)) := by
  refine ⟨?_, ?_, ?_, ?_, ?_, ?_, ?_, ?_⟩
  · intro e he
    simp only [initState, List.mem_map] at he
    obtain ⟨n, hn, rfl⟩ := he
    exact Or.inl ⟨rfl, hn⟩
  · intro p hp
    simp only [initState, List.mem_singleton] at hp
    exact Or.inl hp
  · simp [initState]
  · simp [initState]
  · intro q hq
    simp [initState] at hq
  · intro p
    simp [initState]
  · simp [initState]
  · simp [initState]

/-- The scheduler-loop invariant is preserved by a wave (for any
completion order that permutes the dispatched items). -/
theorem stateOK_step (cfg : CrawlCfg) (docFn : String → CommandDoc)
    (reorder : Nat → List (String × Nat) → List (String × Nat))
    (hperm : ∀ n l, (reorder n l).Perm l) (s : CrawlState)
    (h : stateOK cfg docFn s) : stateOK cfg docFn (waveStep cfg docFn reorder s) := by
  have hcanon := fillWave_canon cfg docFn s h
  obtain ⟨hQ, hV, hroot, hnodup, hvals, hiff, hknodup, hrootk⟩ := h
  have hfresh := fillWave_fresh cfg.concurrency cfg.maxDepth cfg.rootCmd s.queue 0 s.visited
  have hdsperm : (reorder s.waves.length
      (fillWave cfg.concurrency cfg.maxDepth cfg.rootCmd 0 s.queue s.visited).1).Perm
      (fillWave cfg.concurrency cfg.maxDepth cfg.rootCmd 0 s.queue s.visited).1 := hperm _ _
  have hrest_sub : ∀ e ∈ (fillWave cfg.concurrency cfg.maxDepth cfg.rootCmd 0 s.queue s.visited).2.2,
      e ∈ s.queue :=
    fun e he => (fillWave_rest_suffix cfg.concurrency cfg.maxDepth cfg.rootCmd
      s.queue 0 s.visited).sublist.subset he
  have hvis : (waveStep cfg docFn reorder s).visited =
      ((fillWave cfg.concurrency cfg.maxDepth cfg.rootCmd 0 s.queue s.visited).1.map Prod.fst).reverse
        ++ s.visited :=
    fillWave_vis_eq cfg.concurrency cfg.maxDepth cfg.rootCmd s.queue 0 s.visited
  refine ⟨?_, ?_, ?_, ?_, ?_, ?_, ?_, ?_⟩
  · -- queue entries stay justified
    intro e he
    rcases List.mem_append.mp he with h1 | h1
    · exact hQ e (hrest_sub e h1)
    · obtain ⟨pd, hpd, he'⟩ := List.mem_flatMap.mp h1
      obtain ⟨c, hc, rfl⟩ := List.mem_map.mp he'
      exact Or.inr ⟨pd.1, c, hcanon pd (hdsperm.mem_iff.mp hpd), hc, rfl, rfl⟩
  · -- visited paths are the root path or dispatchable
    intro p hp
    rw [hvis] at hp
    rcases List.mem_append.mp hp with h1 | h1
    · obtain ⟨x, hx, rfl⟩ := List.mem_map.mp (List.mem_reverse.mp h1)
      exact Or.inr (hcanon x hx)
    · exact hV p h1
  · -- the root path stays visited
    rw [hvis]
    exact List.mem_append_right _ hroot
  · -- no duplicates among visited paths
    rw [hvis]
    refine List.nodup_append.mpr ⟨List.nodup_reverse.mpr
      (fillWave_nodup cfg.concurrency cfg.maxDepth cfg.rootCmd s.queue 0 s.visited), hnodup, ?_⟩
    intro a ha hb
    obtain ⟨x, hx, rfl⟩ := List.mem_map.mp (List.mem_reverse.mp ha)
    exact hfresh x hx hb
  · -- completed documents are the oracle's output
    intro q hq
    rcases List.mem_append.mp hq with h1 | h1
    · exact hvals q h1
    · obtain ⟨pd, _, rfl⟩ := List.mem_map.mp h1
      rfl
  · -- visited is exactly the root path plus the completed keys
    intro p
    have hk : ((waveStep cfg docFn reorder s).subdocs.map Prod.fst) =
        s.subdocs.map Prod.fst ++ (reorder s.waves.length
          (fillWave cfg.concurrency cfg.maxDepth cfg.rootCmd 0 s.queue s.visited).1).map Prod.fst := by
      simp [waveStep, waveDocs]
    rw [hvis]
    constructor
    · intro hp
      rcases List.mem_append.mp hp with h1 | h1
      · obtain ⟨x, hx, rfl⟩ := List.mem_map.mp (List.mem_reverse.mp h1)
        refine Or.inr ?_
        rw [hk]
        exact List.mem_append_right _ ((hdsperm.map Prod.fst).mem_iff.mpr (List.mem_map_of_mem _ hx))
      · rcases (hiff p).mp h1 with h2 | h2
        · exact Or.inl h2
        · refine Or.inr ?_
          rw [hk]
          exact List.mem_append_left _ h2
    · intro hp
      rcases hp with h2 | h2
      · exact List.mem_append_right _ ((hiff p).mpr (Or.inl h2))
      · rw [hk] at h2
        rcases List.mem_append.mp h2 with h3 | h3
        · exact List.mem_append_right _ ((hiff p).mpr (Or.inr h3))
        · refine List.mem_append_left _ (List.mem_reverse.mpr ?_)
          exact ((hdsperm.map Prod.fst).mem_iff).mp h3
  · -- no duplicates among completed keys
    have hk : ((waveStep cfg docFn reorder s).subdocs.map Prod.fst) =
        s.subdocs.map Prod.fst ++ (reorder s.waves.length
          (fillWave cfg.concurrency cfg.maxDepth cfg.rootCmd 0 s.queue s.visited).1).map Prod.fst := by
      simp [waveStep, waveDocs]
    rw [hk]
    refine List.nodup_append.mpr ⟨hknodup,
      ((hdsperm.map Prod.fst).nodup_iff).mpr
        (fillWave_nodup cfg.concurrency cfg.maxDepth cfg.rootCmd s.queue 0 s.visited), ?_⟩
    intro a ha hb
    have hav : a ∈ s.visited := (hiff a).mpr (Or.inr ha)
    obtain ⟨x, hx, rfl⟩ := List.mem_map.mp ((hdsperm.map Prod.fst).mem_iff.mp hb)
    exact hfresh x hx hav
  · -- the root path is never a completed key
    have hk : ((waveStep cfg docFn reorder s).subdocs.map Prod.fst) =
        s.subdocs.map Prod.fst ++ (reorder s.waves.length
          (fillWave cfg.concurrency cfg.maxDepth cfg.rootCmd 0 s.queue s.visited).1).map Prod.fst := by
      simp [waveStep, waveDocs]
    rw [hk]
    intro hmem
    rcases List.mem_append.mp hmem with h1 | h1
    · exact hrootk h1
    · obtain ⟨x, hx, hx1⟩ := List.mem_map.mp ((hdsperm.map Prod.fst).mem_iff.mp h1)
      exact hfresh x hx (hx1 ▸ hroot)

/-- The scheduler-loop invariant holds at every wave boundary. -/
theorem stateOK_crawl (cfg : CrawlCfg) (docFn : String → CommandDoc)
    (reorder : Nat → List (String × Nat) → List (String × Nat))
    (hperm : ∀ n l, (reorder n l).Perm l) :
    ∀ (fuel : Nat) (s : CrawlState), stateOK cfg docFn s →
      stateOK cfg docFn (crawl cfg docFn reorder fuel s) := by
  intro fuel
  induction fuel with
  | zero => intro s h; exact h
  | succ fuel ih =>
    intro s h
    by_cases hq : s.queue = []
    · rw [crawl_empty cfg docFn reorder s hq]
      exact h
    · rw [crawl_succ cfg docFn reorder fuel s hq]
      exact ih (waveStep cfg docFn reorder s) (stateOK_step cfg docFn reorder hperm s h)

/-- No dispatchable path equals the root document's path. -/
theorem canon_ne_root (cfg : CrawlCfg) (docFn : String → CommandDoc) {p : String}
    (h : Canon cfg docFn p) : p ≠ (docFn cfg.rootCmd).path := by
  cases h with
  | init n _ _ hne => exact hne
  | step p c _ _ _ hne => exact hne

/-- Once a within-bound entry sits in the queue, its full path is visited
by the time the run drains the queue. -/
theorem crawl_queue_processed (cfg : CrawlCfg) (docFn : String → CommandDoc)
    (reorder : Nat → List (String × Nat) → List (String × Nat)) :
    ∀ (fuel : Nat) (s : CrawlState) (n : String) (d : Nat),
      (n, d) ∈ s.queue → d ≤ cfg.maxDepth →
      (crawl cfg docFn reorder fuel s).queue = [] →
      (cfg.rootCmd ++ " " ++ n) ∈ (crawl cfg docFn reorder fuel s).visited := by
  intro fuel
  induction fuel with
  | zero =>
    intro s n d hmem hd hdone
    rw [show crawl cfg docFn reorder 0 s = s from rfl] at hdone
    rw [hdone] at hmem
    simp at hmem
  | succ fuel ih =>
    intro s n d hmem hd hdone
    have hq : s.queue ≠ [] := fun he => by simp [he] at hmem
    rw [crawl_succ cfg docFn reorder fuel s hq] at hdone ⊢
    rcases fillWave_mem_cases cfg.concurrency cfg.maxDepth cfg.rootCmd s.queue 0 s.visited n d hmem
      with h1 | h1 | h1
    · exact visited_mono_crawl cfg docFn reorder fuel (waveStep cfg docFn reorder s) _ h1
    · exact ih (waveStep cfg docFn reorder s) n d (List.mem_append_left _ h1) hd hdone
    · omega

/-- Children discovered by a wave's completions are all enqueued by the end
of the wave. -/
theorem waveStep_child_mem (cfg : CrawlCfg) (docFn : String → CommandDoc)
    (reorder : Nat → List (String × Nat) → List (String × Nat))
    (hperm : ∀ n l, (reorder n l).Perm l) (s : CrawlState) {p : String} {d : Nat}
    (hp : (p, d) ∈ (fillWave cfg.concurrency cfg.maxDepth cfg.rootCmd 0 s.queue s.visited).1)
    {c : String} (hc : c ∈ (docFn p).subcommands) :
    (p ++ " " ++ c, countSpaces p + 1) ∈ (waveStep cfg docFn reorder s).queue := by
  refine List.mem_append_right _ ?_
  refine List.mem_flatMap.mpr ⟨(p, d), (hperm _ _).mem_iff.mpr hp, ?_⟩
  exact List.mem_map.mpr ⟨c, hc, rfl⟩

/-- Every path that becomes visited during a run was either visited at the
start or dispatched by some intermediate wave. -/
theorem crawl_visited_src (cfg : CrawlCfg) (docFn : String → CommandDoc)
    (reorder : Nat → List (String × Nat) → List (String × Nat)) :
    ∀ (fuel : Nat) (s : CrawlState) (p : String),
      p ∈ (crawl cfg docFn reorder fuel s).visited →
      p ∈ s.visited ∨ ∃ j, j < fuel ∧ (crawl cfg docFn reorder j s).queue ≠ [] ∧
        ∃ d, (p, d) ∈ (fillWave cfg.concurrency cfg.maxDepth cfg.rootCmd 0
          (crawl cfg docFn reorder j s).queue (crawl cfg docFn reorder j s).visited).1 := by
  intro fuel
  induction fuel with
  | zero => intro s p hp; exact Or.inl hp
  | succ fuel ih =>
    intro s p hp
    by_cases hq : s.queue = []
    · rw [crawl_empty cfg docFn reorder s hq] at hp
      exact Or.inl hp
    · rw [crawl_succ cfg docFn reorder fuel s hq] at hp
      rcases ih (waveStep cfg docFn reorder s) p hp with h1 | ⟨j, hj, hjq, d, hjd⟩
      · have hvis : (waveStep cfg docFn reorder s).visited =
            ((fillWave cfg.concurrency cfg.maxDepth cfg.rootCmd 0 s.queue s.visited).1.map
              Prod.fst).reverse ++ s.visited :=
          fillWave_vis_eq cfg.concurrency cfg.maxDepth cfg.rootCmd s.queue 0 s.visited
        rw [hvis] at h1
        rcases List.mem_append.mp h1 with h2 | h2
        · obtain ⟨x, hx, rfl⟩ := List.mem_map.mp (List.mem_reverse.mp h2)
          refine Or.inr ⟨0, Nat.succ_pos fuel, hq, x.2, ?_⟩
          simpa using hx
        · exact Or.inl h2
      · refine Or.inr ⟨j + 1, by omega, ?_, d, ?_⟩
        · rw [crawl_succ cfg docFn reorder j s hq]
          exact hjq
        · rw [crawl_succ cfg docFn reorder j s hq]
          exact hjd

/-- Completeness: when the run drains its queue, every canonically
dispatchable path has been visited. -/
theorem canon_complete (cfg : CrawlCfg) (docFn : String → CommandDoc)
    (reorder : Nat → List (String × Nat) → List (String × Nat))
    (hperm : ∀ n l, (reorder n l).Perm l) (fuel : Nat)
    (hdone : (crawlFinal cfg docFn reorder fuel).queue = []) :
    ∀ p, Canon cfg docFn p → p ∈ (crawlFinal cfg docFn reorder fuel).visited := by
  intro p hp
  induction hp with
  | init n hn hd hne =>
    refine crawl_queue_processed cfg docFn reorder fuel (initState (docFn cfg.rootCmd)) n 1 ?_ hd hdone
    simp [initState]
    exact hn
  | step p c hpc hc hd hne ih =>
    have hnotinit : p ∉ (initState (docFn cfg.rootCmd)).visited := by
      simp only [initState, List.mem_singleton]
      exact canon_ne_root cfg docFn hpc
    rcases crawl_visited_src cfg docFn reorder fuel (initState (docFn cfg.rootCmd)) p ih with
      h1 | ⟨j, hj, hjq, d, hjd⟩
    · exact absurd h1 hnotinit
    · have hchild := waveStep_child_mem cfg docFn reorder hperm
        (crawl cfg docFn reorder j (initState (docFn cfg.rootCmd))) hjd hc
      have hsplit : crawl cfg docFn reorder fuel (initState (docFn cfg.rootCmd)) =
          crawl cfg docFn reorder (fuel - (j + 1))
            (crawl cfg docFn reorder (j + 1) (initState (docFn cfg.rootCmd))) := by
        rw [← crawl_add cfg docFn reorder (j + 1) (fuel - (j + 1))]
        congr 1
        omega
      have hstep : crawl cfg docFn reorder (j + 1) (initState (docFn cfg.rootCmd)) =
          waveStep cfg docFn reorder (crawl cfg docFn reorder j (initState (docFn cfg.rootCmd))) := by
        rw [crawl_add cfg docFn reorder j 1]
        simp [crawl, hjq]
      have hfinal := crawl_queue_processed cfg docFn reorder (fuel - (j + 1))
        (crawl cfg docFn reorder (j + 1) (initState (docFn cfg.rootCmd)))
        (p ++ " " ++ c) (countSpaces p + 1)
        (by rw [hstep]; exact hchild) hd
        (by rw [← hsplit]; exact hdone)
      rw [show crawlFinal cfg docFn reorder fuel =
          crawl cfg docFn reorder fuel (initState (docFn cfg.rootCmd)) from rfl, hsplit]
      exact hfinal

/-- The completed keys of a finished run are exactly the canonical
dispatchable set — independent of worker completion order. -/
theorem crawl_keys_iff (cfg : CrawlCfg) (docFn : String → CommandDoc)
    (reorder : Nat → List (String × Nat) → List (String × Nat))
    (hperm : ∀ n l, (reorder n l).Perm l) (fuel : Nat)
    (hdone : (crawlFinal cfg docFn reorder fuel).queue = []) :
    ∀ p, p ∈ (crawlFinal cfg docFn reorder fuel).subdocs.map Prod.fst ↔ Canon cfg docFn p := by
  have hOK := stateOK_crawl cfg docFn reorder hperm fuel (initState (docFn cfg.rootCmd))
    (stateOK_init cfg docFn)
  obtain ⟨_, hV, _, _, _, hiff, _, hrootk⟩ := hOK
  intro p
  constructor
  · intro hp
    have hpv : p ∈ (crawlFinal cfg docFn reorder fuel).visited := (hiff p).mpr (Or.inr hp)
    rcases hV p hpv with h1 | h1
    · exact absurd (h1 ▸ hp) hrootk
    · exact h1
  · intro hp
    have hpv := canon_complete cfg docFn reorder hperm fuel hdone p hp
    rcases (hiff p).mp hpv with h1 | h1
    · exact absurd h1 (canon_ne_root cfg docFn hp)
    · exact h1

/-- Looking up a completed key returns the worker oracle's document. -/
theorem subdocs_lookup (docFn : String → CommandDoc) :
    ∀ (m : List (String × CommandDoc)), (∀ q ∈ m, q.2 = docFn q.1) →
      ∀ k ∈ m.map Prod.fst, List.lookup k m = Option.some (docFn k) := by
  intro m
  induction m with
  | nil => intro _ k hk; simp at hk
  | cons e m ih =>
    intro hvals k hk
    obtain ⟨k', v⟩ := e
    by_cases he : k = k'
    · subst he
      have : v = docFn k := hvals (k, v) (List.mem_cons_self _ _)
      simp [List.lookup, this]
    · have hbeq : (k == k') = false := beq_eq_false_iff_ne.mpr he
      rw [show List.lookup k ((k', v) :: m) = List.lookup k m by simp [List.lookup, hbeq]]
      refine ih (fun q hq => hvals q (List.mem_cons_of_mem _ hq)) k ?_
      rcases List.mem_cons.mp hk with h1 | h1
      · exact absurd h1 he
      · exact h1

/-- C9: the final tool document's direct children are the completed nodes
whose key has exactly one space beyond the root, in sorted key order with
their completed documents, and the flattened export list is the root
document followed by all completed nodes sorted by key; two finished runs
of the same crawl with different worker completion orders produce
identical children and identical flattened lists, because the completed
key set is exactly the order-independent canonical dispatchable set. -/
theorem aggregation_deterministic
    (cfg : CrawlCfg) (docFn : String → CommandDoc)
    (r₁ r₂ : Nat → List (String × Nat) → List (String × Nat)) (fuel₁ fuel₂ : Nat)
    (version : Option String) (helpText binPath capturedAt : String)
    (hperm₁ : ∀ n l, (r₁ n l).Perm l) (hperm₂ : ∀ n l, (r₂ n l).Perm l)
    (hdone₁ : (crawlFinal cfg docFn r₁ fuel₁).queue = [])
    (hdone₂ : (crawlFinal cfg docFn r₂ fuel₂).queue = []) :
    (build_tree cfg docFn r₁ fuel₁ version helpText binPath capturedAt).1.tool.subcommands =
      (build_tree cfg docFn r₂ fuel₂ version helpText binPath capturedAt).1.tool.subcommands ∧
    (build_tree cfg docFn r₁ fuel₁ version helpText binPath capturedAt).2 =
      (build_tree cfg docFn r₂ fuel₂ version helpText binPath capturedAt).2 ∧
    (build_tree cfg docFn r₁ fuel₁ version helpText binPath capturedAt).1.tool.subcommands =
      ((pySorted ((crawlFinal cfg docFn r₁ fuel₁).subdocs.map Prod.fst)).filter
        (fun k => countSpaces k = 1)).map docFn ∧
    (build_tree cfg docFn r₁ fuel₁ version helpText binPath capturedAt).2 =
      docFn cfg.rootCmd ::
        (pySorted ((crawlFinal cfg docFn r₁ fuel₁).subdocs.map Prod.fst)).map docFn ∧
    List.Sorted strLeProp (pySorted ((crawlFinal cfg docFn r₁ fuel₁).subdocs.map Prod.fst)) ∧
    (∀ k, k ∈ (crawlFinal cfg docFn r₁ fuel₁).subdocs.map Prod.fst ↔ Canon cfg docFn k) := by
  have hOK₁ := stateOK_crawl cfg docFn r₁ hperm₁ fuel₁ (initState (docFn cfg.rootCmd))
    (stateOK_init cfg docFn)
  have hOK₂ := stateOK_crawl cfg docFn r₂ hperm₂ fuel₂ (initState (docFn cfg.rootCmd))
    (stateOK_init cfg docFn)
  have hkeys₁ := crawl_keys_iff cfg docFn r₁ hperm₁ fuel₁ hdone₁
  have hkeys₂ := crawl_keys_iff cfg docFn r₂ hperm₂ fuel₂ hdone₂
  have hknodup₁ : ((crawlFinal cfg docFn r₁ fuel₁).subdocs.map Prod.fst).Nodup :=
    hOK₁.2.2.2.2.2.2.1
  have hknodup₂ : ((crawlFinal cfg docFn r₂ fuel₂).subdocs.map Prod.fst).Nodup :=
    hOK₂.2.2.2.2.2.2.1
  have hvals₁ : ∀ q ∈ (crawlFinal cfg docFn r₁ fuel₁).subdocs, q.2 = docFn q.1 :=
    hOK₁.2.2.2.2.1
  have hvals₂ : ∀ q ∈ (crawlFinal cfg docFn r₂ fuel₂).subdocs, q.2 = docFn q.1 :=
    hOK₂.2.2.2.2.1
  have hsorteq : pySorted ((crawlFinal cfg docFn r₁ fuel₁).subdocs.map Prod.fst) =
      pySorted ((crawlFinal cfg docFn r₂ fuel₂).subdocs.map Prod.fst) :=
    pySorted_congr hknodup₁ hknodup₂ (fun a => (hkeys₁ a).trans (hkeys₂ a).symm)
  have hget₁ : ∀ k ∈ pySorted ((crawlFinal cfg docFn r₁ fuel₁).subdocs.map Prod.fst),
      dictGet (crawlFinal cfg docFn r₁ fuel₁).subdocs k = docFn k := by
    intro k hk
    have hkm : k ∈ (crawlFinal cfg docFn r₁ fuel₁).subdocs.map Prod.fst :=
      (pySorted_perm _).mem_iff.mp hk
    simp [dictGet, subdocs_lookup docFn _ hvals₁ k hkm]
  have hget₂ : ∀ k ∈ pySorted ((crawlFinal cfg docFn r₂ fuel₂).subdocs.map Prod.fst),
      dictGet (crawlFinal cfg docFn r₂ fuel₂).subdocs k = docFn k := by
    intro k hk
    have hkm : k ∈ (crawlFinal cfg docFn r₂ fuel₂).subdocs.map Prod.fst :=
      (pySorted_perm _).mem_iff.mp hk
    simp [dictGet, subdocs_lookup docFn _ hvals₂ k hkm]
  have hsub₁ : (build_tree cfg docFn r₁ fuel₁ version helpText binPath capturedAt).1.tool.subcommands =
      ((pySorted ((crawlFinal cfg docFn r₁ fuel₁).subdocs.map Prod.fst)).filter
        (fun k => countSpaces k = 1)).map docFn := by
    refine Eq.trans (rfl :
      (build_tree cfg docFn r₁ fuel₁ version helpText binPath capturedAt).1.tool.subcommands =
      ((pySorted ((crawlFinal cfg docFn r₁ fuel₁).subdocs.map Prod.fst)).filter
        (fun k => countSpaces k = 1)).map (dictGet (crawlFinal cfg docFn r₁ fuel₁).subdocs)) ?_
    exact List.map_congr_left (fun k hk => hget₁ k (List.mem_of_mem_filter hk))
  have hsub₂ : (build_tree cfg docFn r₂ fuel₂ version helpText binPath capturedAt).1.tool.subcommands =
      ((pySorted ((crawlFinal cfg docFn r₂ fuel₂).subdocs.map Prod.fst)).filter
        (fun k => countSpaces k = 1)).map docFn := by
    refine Eq.trans (rfl :
      (build_tree cfg docFn r₂ fuel₂ version helpText binPath capturedAt).1.tool.subcommands =
      ((pySorted ((crawlFinal cfg docFn r₂ fuel₂).subdocs.map Prod.fst)).filter
        (fun k => countSpaces k = 1)).map (dictGet (crawlFinal cfg docFn r₂ fuel₂).subdocs)) ?_
    exact List.map_congr_left (fun k hk => hget₂ k (List.mem_of_mem_filter hk))
  have hall₁ : (build_tree cfg docFn r₁ fuel₁ version helpText binPath capturedAt).2 =
      docFn cfg.rootCmd ::
        (pySorted ((crawlFinal cfg docFn r₁ fuel₁).subdocs.map Prod.fst)).map docFn := by
    refine Eq.trans (rfl :
      (build_tree cfg docFn r₁ fuel₁ version helpText binPath capturedAt).2 =
      docFn cfg.rootCmd ::
        (pySorted ((crawlFinal cfg docFn r₁ fuel₁).subdocs.map Prod.fst)).map
          (dictGet (crawlFinal cfg docFn r₁ fuel₁).subdocs)) ?_
    exact congrArg _ (List.map_congr_left hget₁)
  have hall₂ : (build_tree cfg docFn r₂ fuel₂ version helpText binPath capturedAt).2 =
      docFn cfg.rootCmd ::
        (pySorted ((crawlFinal cfg docFn r₂ fuel₂).subdocs.map Prod.fst)).map docFn := by
    refine Eq.trans (rfl :
      (build_tree cfg docFn r₂ fuel₂ version helpText binPath capturedAt).2 =
      docFn cfg.rootCmd ::
        (pySorted ((crawlFinal cfg docFn r₂ fuel₂).subdocs.map Prod.fst)).map
          (dictGet (crawlFinal cfg docFn r₂ fuel₂).subdocs)) ?_
    exact congrArg _ (List.map_congr_left hget₂)
  refine ⟨?_, ?_, hsub₁, hall₁, pySorted_sorted _, hkeys₁⟩
  · rw [hsub₁, hsub₂, hsorteq]
  · rw [hall₁, hall₂, hsorteq]

/-- C9 witness: the same crawl run with submission order and with reversed
completion order produces identical children. -/
theorem aggregation_deterministic_witness :
    (build_tree ⟨"tool", 3, 2⟩ c9DocFn (fun _ l => l) 10 Option.none "h" "/bin/tool" "T").1.tool.subcommands =
      (build_tree ⟨"tool", 3, 2⟩ c9DocFn (fun _ l => l.reverse) 10 Option.none "h" "/bin/tool" "T").1.tool.subcommands ∧
    (build_tree ⟨"tool", 3, 2⟩ c9DocFn (fun _ l => l) 10 Option.none "h" "/bin/tool" "T").2 =
      (build_tree ⟨"tool", 3, 2⟩ c9DocFn (fun _ l => l.reverse) 10 Option.none "h" "/bin/tool" "T").2 := by
  have h := aggregation_deterministic ⟨"tool", 3, 2⟩ c9DocFn (fun _ l => l) (fun _ l => l.reverse)
    10 10 Option.none "h" "/bin/tool" "T" (fun _ l => List.Perm.refl l)
    (fun _ l => List.reverse_perm l) (by decide) (by decide)
  exact ⟨h.1, h.2.1⟩
